import Mathlib

/-!
# Metrics publisher of the integreatly operator (`pkg/metrics/metrics.go`)

A shallow embedding of the gauge families declared in `metrics.go` and of the
publisher functions that write to them, and, further down, of the admission
rule builder of `pkg/webhooks/rules.go`; the definitions come first, the
properties of the publishers and of the builder after them.

Conventions of the embedding

* Go `string` is `String`; the label values are therefore valid UTF-8, which is
  what the gauge family accepts.
* Go `int` and `int64` are `Int`; the only arithmetic is `0 - 1` and `0 + 1`.
* A gauge holds a Go `float64`.  Every number this package stores is the
  conversion `float64(n)` of an integer `n`, or the initial `0` of a new gauge,
  so a gauge value is modelled by the integer it denotes and the conversion by
  the function `float64` below.
* A call that panics returns `none`.
-/

namespace Metrics

/-! ## Gauge values -/

/-- Number of low-order bits that do not fit a 53 bit significand: how often
`a` is halved until it is below `2 ^ 53`. -/
def excessBits : Nat → Nat → Nat
  | 0, _ => 0
  | fuel + 1, a => if a < 2 ^ 53 then 0 else excessBits fuel (a / 2) + 1

/-- Conversion `float64(n)` of a Go integer: the nearest number with a 53 bit
significand, ties going to the even significand.  The result is again an
integer.  (Exact for every `n` of magnitude up to `2 ^ 1023`, so for all of
`int64`.) -/
def float64 (n : Int) : Int :=
  let a := n.natAbs
  let e := excessBits 971 a
  let q := a / 2 ^ e
  let r := a % 2 ^ e
  let q1 := if 2 ^ e < 2 * r ∨ (2 * r = 2 ^ e ∧ q % 2 = 1) then q + 1 else q
  Int.sign n * ((q1 * 2 ^ e : Nat) : Int)

/-! ## Gauge families -/

/-- An ordered tuple of label values, one per declared dimension of a family. -/
abbrev LabelValues := List String

/-- Modelled from the spec: the tuple table of a gauge family of the Prometheus
client library (the library is not part of the sources): "a mapping from a
label-value tuple to a numeric value" (§3), listed in order of creation. -/
abbrev MetricMap := List (LabelValues × Int)

/-- Modelled from the spec: a `prometheus.Labels` literal, label name to label
value. -/
abbrev Labels := List (String × String)

/-- A gauge obtained from a family: the table of the family together with the
tuple the gauge sits at. -/
structure Gauge where
  lvs : LabelValues
  metrics : MetricMap
deriving DecidableEq, Repr

/-- Value stored at a tuple, `none` when the family has no such tuple. -/
def lookup (lvs : LabelValues) : MetricMap → Option Int
  | [] => none
  | (k, v) :: m => if k = lvs then some v else lookup lvs m

/-- Number of entries of the tuple table that sit at the tuple `lvs`. -/
def tupleCount (lvs : LabelValues) : MetricMap → Nat
  | [] => 0
  | (k, _) :: m => (if k = lvs then 1 else 0) + tupleCount lvs m

/-- The tuple table with the tuple `lvs` present: unchanged when the tuple is
there already, otherwise extended by a new gauge, whose value is `0`. -/
def getOrCreate (lvs : LabelValues) (m : MetricMap) : MetricMap :=
  match lookup lvs m with
  | some _ => m
  | none => m ++ [(lvs, 0)]

/-- The tuple table with the value at tuple `lvs` overwritten by `v`. -/
def store (lvs : LabelValues) (v : Int) : MetricMap → MetricMap
  | [] => []
  | (k, w) :: m => if k = lvs then (k, v) :: m else (k, w) :: store lvs v m

/-- The label values of `labels` in the order of the label names `names`; `none`
when a name has no value. -/
def valuesInOrder (labels : Labels) : List String → Option LabelValues
  | [] => some []
  | name :: names =>
    match labels.lookup name, valuesInOrder labels names with
    | some v, some vs => some (v :: vs)
    | _, _ => none

namespace GaugeVec

/-- Modelled from the spec: `GaugeVec.Reset` of the client library,
`reset_all()`: "removes every tuple in the family" (§4.3). -/
def Reset (_m : MetricMap) : MetricMap := []

/-- Modelled from the spec: `GaugeVec.WithLabelValues` of the client library:
the gauge at the tuple `lvs`, created when absent; a "wrong dimension count"
fails "loudly (panic/abort-equivalent)" (§4.4). -/
def WithLabelValues (labelNames : List String) (lvs : LabelValues) (m : MetricMap) :
    Option Gauge :=
  if lvs.length = labelNames.length then some ⟨lvs, getOrCreate lvs m⟩ else none

/-- Modelled from the spec: `GaugeVec.With` of the client library: as
`WithLabelValues`, the tuple being read off the label names in declared order;
panics unless the labels are exactly the declared names. -/
def With (labelNames : List String) (labels : Labels) (m : MetricMap) : Option Gauge :=
  if labels.length = labelNames.length then
    (valuesInOrder labels labelNames).map (fun lvs => ⟨lvs, getOrCreate lvs m⟩)
  else none

end GaugeVec

/-- Modelled from the spec: `Gauge.Set` of the client library, `set(key_tuple,
value)`: overwrites the value of the gauge and "does not touch other key
tuples in the family" (§4.3). -/
def Gauge.Set (g : Gauge) (v : Int) : MetricMap := store g.lvs v g.metrics

/-! ## The registry of `metrics.go` -/

/-- Declared label names of `RHMIInfo`. -/
def RHMIInfo_labelNames : List String :=
  ["use_cluster_storage", "master_url", "installation_type", "operator_name",
   "namespace", "namespace_prefix", "operators_in_product_namespace",
   "routing_subdomain", "self_signed_certs"]

/-- Declared label names of `RHMIVersion`. -/
def RHMIVersion_labelNames : List String := ["stage", "version", "to_version"]

/-- Declared label names of `RHMIStatus`. -/
def RHMIStatus_labelNames : List String := ["stage"]

/-- Declared label names of `RHMIPreflightStatus`. -/
def RHMIPreflightStatus_labelNames : List String := ["status"]

/-- Declared label names of `RHOAMVersion`. -/
def RHOAMVersion_labelNames : List String := ["stage", "version", "to_version"]

/-- Declared label names of `RHOAMStatus`. -/
def RHOAMStatus_labelNames : List String := ["stage"]

/-- Declared label names of `RHOAMPreflightStatus`. -/
def RHOAMPreflightStatus_labelNames : List String := ["status"]

/-- Declared label names of `ThreeScaleUserAction`. -/
def ThreeScaleUserAction_labelNames : List String := ["username", "action"]

/-- Declared label names of `Quota`. -/
def Quota_labelNames : List String := ["stage", "quota", "toQuota"]

/-- The package-level metrics of `metrics.go`: the two plain gauges and the
tuple table of each of the nine gauge families. -/
structure Registry where
  OperatorVersion : Int
  RHMIStatusAvailable : Int
  RHMIInfo : MetricMap
  RHMIVersion : MetricMap
  RHMIStatus : MetricMap
  RHMIPreflightStatus : MetricMap
  RHOAMVersion : MetricMap
  RHOAMStatus : MetricMap
  RHOAMPreflightStatus : MetricMap
  ThreeScaleUserAction : MetricMap
  Quota : MetricMap
deriving DecidableEq, Repr

/-- The registry at process start: no family holds a tuple. -/
def Registry.empty : Registry :=
  ⟨0, 0, [], [], [], [], [], [], [], [], []⟩

/-! ## The installation resource (the fields the publishers read) -/

/-- The fields of `RHMISpec` read by `SetRHMIInfo`. -/
structure RHMISpec where
  UseClusterStorage : String
  MasterURL : String
  Type_ : String
  NamespacePrefix : String
  OperatorsInProductNamespace : Bool
  RoutingSubdomain : String
  SelfSignedCerts : Bool
deriving DecidableEq, Repr

/-- The field of `RHMIStatus` read by `SetRHMIStatus`. -/
structure RHMIStatus where
  Stage : String
deriving DecidableEq, Repr

/-- The installation resource `integreatlyv1alpha1.RHMI`. -/
structure RHMI where
  Name : String
  Namespace : String
  Spec : RHMISpec
  Status : RHMIStatus
deriving DecidableEq, Repr

/-- The constants of type `PreflightStatus` (a string type) that
`SetPreflightStatus` compares with; their declaration is outside the sources, so
they are parameters of the development. -/
structure PreflightStatusConsts where
  PreflightInProgress : String
  PreflightSuccess : String
  PreflightFail : String
deriving DecidableEq, Repr

/-- Go `fmt.Sprintf("%t", b)`. -/
def sprintfBool (b : Bool) : String := if b then "true" else "false"

/-! ## The publishers -/

/-- Publisher `SetRHMIInfo`: addresses the gauge of the installation's label values in
`RHMIInfo`; no value is written.  `installation` is a pointer, `none` is nil. -/
def SetRHMIInfo (installation : Option RHMI) (r : Registry) : Option Registry := do
  let inst ← installation
  let g ← GaugeVec.WithLabelValues RHMIInfo_labelNames
    [inst.Spec.UseClusterStorage, inst.Spec.MasterURL, inst.Spec.Type_, inst.Name,
     inst.Namespace, inst.Spec.NamespacePrefix,
     sprintfBool inst.Spec.OperatorsInProductNamespace, inst.Spec.RoutingSubdomain,
     sprintfBool inst.Spec.SelfSignedCerts] r.RHMIInfo
  pure { r with RHMIInfo := g.metrics }

/-- Publisher `SetRHMIStatus`. -/
def SetRHMIStatus (installation : Option RHMI) (r : Registry) : Option Registry := do
  let r1 := { r with RHMIStatus := GaugeVec.Reset r.RHMIStatus }
  let inst ← installation
  let r2 ←
    if inst.Status.Stage ≠ "" then do
      let g ← GaugeVec.With RHMIStatus_labelNames [("stage", inst.Status.Stage)]
        r1.RHMIStatus
      pure { r1 with RHMIStatus := g.Set (float64 1) }
    else pure r1
  let r3 := { r2 with RHOAMStatus := GaugeVec.Reset r2.RHOAMStatus }
  if inst.Status.Stage ≠ "" then do
    let g ← GaugeVec.With RHOAMStatus_labelNames [("stage", inst.Status.Stage)]
      r3.RHOAMStatus
    pure { r3 with RHOAMStatus := g.Set (float64 1) }
  else pure r3

/-- Publisher `SetRhmiVersions`. -/
def SetRhmiVersions (stage version toVersion : String) (firstInstallTimestamp : Int)
    (r : Registry) : Option Registry := do
  let g1 ← GaugeVec.WithLabelValues RHMIVersion_labelNames [stage, version, toVersion]
    (GaugeVec.Reset r.RHMIVersion)
  let r1 := { r with RHMIVersion := g1.Set (float64 firstInstallTimestamp) }
  let g2 ← GaugeVec.WithLabelValues RHOAMVersion_labelNames [stage, version, toVersion]
    (GaugeVec.Reset r1.RHOAMVersion)
  pure { r1 with RHOAMVersion := g2.Set (float64 firstInstallTimestamp) }

/-- The local `preflightNumberStatus` of `SetPreflightStatus`. -/
def preflightNumberStatus (c : PreflightStatusConsts) (status : String) : Int :=
  if status = c.PreflightFail then 0 - 1
  else if status = c.PreflightSuccess then 0 + 1
  else 0

/-- Publisher `SetPreflightStatus`. -/
def SetPreflightStatus (c : PreflightStatusConsts) (status : String) (r : Registry) :
    Option Registry := do
  let r1 := { r with RHOAMPreflightStatus := GaugeVec.Reset r.RHOAMPreflightStatus }
  let r2 := { r1 with RHMIPreflightStatus := GaugeVec.Reset r1.RHMIPreflightStatus }
  let n := preflightNumberStatus c status
  let g1 ← GaugeVec.WithLabelValues RHOAMPreflightStatus_labelNames [status]
    r2.RHOAMPreflightStatus
  let r3 := { r2 with RHOAMPreflightStatus := g1.Set (float64 n) }
  let g2 ← GaugeVec.WithLabelValues RHMIPreflightStatus_labelNames [status]
    r3.RHMIPreflightStatus
  pure { r3 with RHMIPreflightStatus := g2.Set (float64 n) }

/-- Publisher `SetThreeScaleUserAction`. -/
def SetThreeScaleUserAction (httpStatus : Int) (username action : String)
    (r : Registry) : Option Registry := do
  let g ← GaugeVec.WithLabelValues ThreeScaleUserAction_labelNames [username, action]
    r.ThreeScaleUserAction
  pure { r with ThreeScaleUserAction := g.Set (float64 httpStatus) }

/-- Publisher `ResetThreeScaleUserAction`. -/
def ResetThreeScaleUserAction (r : Registry) : Option Registry :=
  some { r with ThreeScaleUserAction := GaugeVec.Reset r.ThreeScaleUserAction }

/-- Publisher `SetQuota`. -/
def SetQuota (stage quota toQuota : String) (r : Registry) : Option Registry := do
  let g ← GaugeVec.WithLabelValues Quota_labelNames [stage, quota, toQuota]
    (GaugeVec.Reset r.Quota)
  pure { r with Quota := g.Set (float64 1) }

/-! ## Sequences of publisher calls -/

/-- One call of a publisher, with its arguments.  The installation of
`SetRHMIInfo` and `SetRHMIStatus` is the resource a non-nil pointer refers to. -/
inductive Call where
  | SetRHMIInfo (installation : RHMI)
  | SetRHMIStatus (installation : RHMI)
  | SetRhmiVersions (stage version toVersion : String) (firstInstallTimestamp : Int)
  | SetPreflightStatus (status : String)
  | SetThreeScaleUserAction (httpStatus : Int) (username action : String)
  | ResetThreeScaleUserAction
  | SetQuota (stage quota toQuota : String)
deriving DecidableEq, Repr

/-- Effect of one publisher call on the registry. -/
def Call.apply (c : PreflightStatusConsts) : Call → Registry → Option Registry
  | .SetRHMIInfo installation, r => Metrics.SetRHMIInfo (some installation) r
  | .SetRHMIStatus installation, r => Metrics.SetRHMIStatus (some installation) r
  | .SetRhmiVersions stage version toVersion ts, r =>
      Metrics.SetRhmiVersions stage version toVersion ts r
  | .SetPreflightStatus status, r => Metrics.SetPreflightStatus c status r
  | .SetThreeScaleUserAction httpStatus username action, r =>
      Metrics.SetThreeScaleUserAction httpStatus username action r
  | .ResetThreeScaleUserAction, r => Metrics.ResetThreeScaleUserAction r
  | .SetQuota stage quota toQuota, r => Metrics.SetQuota stage quota toQuota r

/-- Effect of a finite sequence of publisher calls, first call first. -/
def run (c : PreflightStatusConsts) : List Call → Registry → Option Registry
  | [], r => some r
  | call :: calls, r => (call.apply c r).bind (run c calls)

/-- Every latched family holds at most one tuple. -/
def Latched (r : Registry) : Prop :=
  r.RHMIStatus.length ≤ 1 ∧ r.RHOAMStatus.length ≤ 1 ∧
  r.RHMIVersion.length ≤ 1 ∧ r.RHOAMVersion.length ≤ 1 ∧
  r.RHMIPreflightStatus.length ≤ 1 ∧ r.RHOAMPreflightStatus.length ≤ 1 ∧
  r.Quota.length ≤ 1

instance (r : Registry) : Decidable (Latched r) := by
  unfold Latched; infer_instance

/-! ## The steps of a publisher call -/

/-- The gauge families of the registry. -/
inductive Family where
  | RHMIInfo | RHMIVersion | RHMIStatus | RHMIPreflightStatus
  | RHOAMVersion | RHOAMStatus | RHOAMPreflightStatus
  | ThreeScaleUserAction | Quota
deriving DecidableEq, Repr

/-- The tuple table of a family. -/
def Registry.family (r : Registry) : Family → MetricMap
  | .RHMIInfo => r.RHMIInfo
  | .RHMIVersion => r.RHMIVersion
  | .RHMIStatus => r.RHMIStatus
  | .RHMIPreflightStatus => r.RHMIPreflightStatus
  | .RHOAMVersion => r.RHOAMVersion
  | .RHOAMStatus => r.RHOAMStatus
  | .RHOAMPreflightStatus => r.RHOAMPreflightStatus
  | .ThreeScaleUserAction => r.ThreeScaleUserAction
  | .Quota => r.Quota

/-- The registry with the tuple table of one family replaced. -/
def Registry.setFamily (r : Registry) (f : Family) (m : MetricMap) : Registry :=
  match f with
  | .RHMIInfo => { r with RHMIInfo := m }
  | .RHMIVersion => { r with RHMIVersion := m }
  | .RHMIStatus => { r with RHMIStatus := m }
  | .RHMIPreflightStatus => { r with RHMIPreflightStatus := m }
  | .RHOAMVersion => { r with RHOAMVersion := m }
  | .RHOAMStatus => { r with RHOAMStatus := m }
  | .RHOAMPreflightStatus => { r with RHOAMPreflightStatus := m }
  | .ThreeScaleUserAction => { r with ThreeScaleUserAction := m }
  | .Quota => { r with Quota := m }

/-- Modelled from the spec: the calls into a gauge family that a publisher
makes one after another.  Each is a single access to "the family's internal
tuple table", which is "guarded by a per-family exclusive-access discipline"
(§5): a snapshot falls before or after such a call, never inside one. -/
inductive Op where
  | Reset (f : Family)
  | WithLabelValues (f : Family) (labelNames : List String) (lvs : LabelValues)
  | With (f : Family) (labelNames : List String) (labels : Labels)
  | Set (f : Family) (lvs : LabelValues) (v : Int)
deriving DecidableEq, Repr

/-- Effect of one step on the registry. -/
def Op.exec : Op → Registry → Option Registry
  | .Reset f, r => some (r.setFamily f (GaugeVec.Reset (r.family f)))
  | .WithLabelValues f labelNames lvs, r =>
      (GaugeVec.WithLabelValues labelNames lvs (r.family f)).map
        (fun g => r.setFamily f g.metrics)
  | .With f labelNames labels, r =>
      (GaugeVec.With labelNames labels (r.family f)).map
        (fun g => r.setFamily f g.metrics)
  | .Set f lvs v, r => some (r.setFamily f (Gauge.Set ⟨lvs, r.family f⟩ v))

/-- Effect of a sequence of steps, first step first. -/
def execOps : List Op → Registry → Option Registry
  | [], r => some r
  | op :: ops, r => (op.exec r).bind (execOps ops)

/-- The steps of `SetRHMIStatus`, in source order. -/
def SetRHMIStatus_ops (installation : RHMI) : List Op :=
  [Op.Reset .RHMIStatus] ++
  (if installation.Status.Stage ≠ "" then
    [Op.With .RHMIStatus RHMIStatus_labelNames [("stage", installation.Status.Stage)],
     Op.Set .RHMIStatus [installation.Status.Stage] (float64 1)]
   else []) ++
  [Op.Reset .RHOAMStatus] ++
  (if installation.Status.Stage ≠ "" then
    [Op.With .RHOAMStatus RHOAMStatus_labelNames [("stage", installation.Status.Stage)],
     Op.Set .RHOAMStatus [installation.Status.Stage] (float64 1)]
   else [])

/-- The steps of `SetRhmiVersions`, in source order. -/
def SetRhmiVersions_ops (stage version toVersion : String) (firstInstallTimestamp : Int) :
    List Op :=
  [.Reset .RHMIVersion,
   .WithLabelValues .RHMIVersion RHMIVersion_labelNames [stage, version, toVersion],
   .Set .RHMIVersion [stage, version, toVersion] (float64 firstInstallTimestamp),
   .Reset .RHOAMVersion,
   .WithLabelValues .RHOAMVersion RHOAMVersion_labelNames [stage, version, toVersion],
   .Set .RHOAMVersion [stage, version, toVersion] (float64 firstInstallTimestamp)]

/-- The steps of `SetPreflightStatus`, in source order. -/
def SetPreflightStatus_ops (c : PreflightStatusConsts) (status : String) : List Op :=
  [.Reset .RHOAMPreflightStatus,
   .Reset .RHMIPreflightStatus,
   .WithLabelValues .RHOAMPreflightStatus RHOAMPreflightStatus_labelNames [status],
   .Set .RHOAMPreflightStatus [status] (float64 (preflightNumberStatus c status)),
   .WithLabelValues .RHMIPreflightStatus RHMIPreflightStatus_labelNames [status],
   .Set .RHMIPreflightStatus [status] (float64 (preflightNumberStatus c status))]

/-- The steps of `SetQuota`, in source order. -/
def SetQuota_ops (stage quota toQuota : String) : List Op :=
  [.Reset .Quota,
   .WithLabelValues .Quota Quota_labelNames [stage, quota, toQuota],
   .Set .Quota [stage, quota, toQuota] (float64 1)]

/-- What a snapshot can find in a family during a call that replaces the old
content `old` by the tuple `lvs` with value `v`: the old content, the empty
family, the new tuple at the initial value `0`, or the new tuple at `v`. -/
def Observed (old : MetricMap) (lvs : LabelValues) (v : Int) (m : MetricMap) : Prop :=
  m = old ∨ m = [] ∨ m = [(lvs, 0)] ∨ m = [(lvs, v)]

/-- A registry whose `Quota` family holds the tuple of an earlier call. -/
def sampleRegistry : Registry :=
  { Registry.empty with Quota := [(["installing", "10", "20"], 1)] }

/-! ## Notions used by the properties of the publishers -/

/-- The label values `SetRHMIInfo` passes to `RHMIInfo.WithLabelValues`, in the
order of the call. -/
def infoLabelValues (installation : RHMI) : LabelValues :=
  [installation.Spec.UseClusterStorage, installation.Spec.MasterURL,
   installation.Spec.Type_, installation.Name, installation.Namespace,
   installation.Spec.NamespacePrefix,
   sprintfBool installation.Spec.OperatorsInProductNamespace,
   installation.Spec.RoutingSubdomain,
   sprintfBool installation.Spec.SelfSignedCerts]

/-- The paired RHMI and RHOAM families have the same content. -/
def Mirrored (r : Registry) : Prop :=
  r.RHMIStatus = r.RHOAMStatus ∧ r.RHMIVersion = r.RHOAMVersion ∧
  r.RHMIPreflightStatus = r.RHOAMPreflightStatus

instance (r : Registry) : Decidable (Mirrored r) := by
  unfold Mirrored; infer_instance

/-- The families a publisher is said to own. -/
def Call.families : Call → List Family
  | .SetRHMIInfo _ => [.RHMIInfo]
  | .SetRHMIStatus _ => [.RHMIStatus, .RHOAMStatus]
  | .SetRhmiVersions _ _ _ _ => [.RHMIVersion, .RHOAMVersion]
  | .SetPreflightStatus _ => [.RHMIPreflightStatus, .RHOAMPreflightStatus]
  | .SetThreeScaleUserAction _ _ _ => [.ThreeScaleUserAction]
  | .ResetThreeScaleUserAction => [.ThreeScaleUserAction]
  | .SetQuota _ _ _ => [.Quota]

/-- An installation with `use_cluster_storage = "true"` in the namespace
`redhat-rhmi-operator`. -/
def sampleInstallation : RHMI :=
  { Name := "rhmi", Namespace := "redhat-rhmi-operator",
    Spec := { UseClusterStorage := "true", MasterURL := "", Type_ := "managed",
              NamespacePrefix := "redhat-rhmi-", OperatorsInProductNamespace := false,
              RoutingSubdomain := "", SelfSignedCerts := false },
    Status := { Stage := "complete" } }

/-- The same installation after its `use_cluster_storage` changed to `"false"`. -/
def sampleInstallation2 : RHMI :=
  { sampleInstallation with
    Spec := { sampleInstallation.Spec with UseClusterStorage := "false" } }

/-- The constants used where the theorems below are applied to a concrete
input; any three distinct strings serve. -/
def sampleConsts : PreflightStatusConsts := ⟨"", "successful", "failed"⟩

end Metrics

/-!
# Admission rule builder (`pkg/webhooks/rules.go`)

Every method of the builder has a value receiver and returns the rule, so a
step works on a copy of the rule.  A copy of the rule copies the slice headers
and shares the backing arrays.  The `For...` steps `append` to `Operations`, so
the embedding keeps that slice as a header over a heap of backing arrays.
`APIGroups`, `APIVersions` and `Resources` are only ever assigned a fresh
one-element literal, and no step appends to them or writes into them, so they
are modelled by their content.
-/

namespace Webhooks

/-- The string type `v1.OperationType`. -/
abbrev OperationType := String

/-- The string type `v1.ScopeType`. -/
abbrev ScopeType := String

/-- The constants of `k8s.io/api/admissionregistration/v1` that the builder
uses; their declaration is outside the sources, so they are parameters of the
development. -/
structure V1Consts where
  OperationAll : OperationType
  Create : OperationType
  Update : OperationType
  Delete : OperationType
  NamespacedScope : ScopeType
deriving DecidableEq, Repr

/-- The backing arrays of `[]v1.OperationType` slices allocated so far; the
index of an array is its address. -/
abbrev Heap := List (List OperationType)

/-- A Go slice header of type `[]v1.OperationType`: the backing array the slice
starts at, its length and its capacity.  The nil slice has length and capacity
`0`. -/
structure Slice where
  array : Nat
  len : Nat
  cap : Nat
deriving DecidableEq, Repr

/-- The nil slice. -/
def Slice.nil : Slice := ⟨0, 0, 0⟩

/-- The elements of a slice in a heap. -/
def Slice.elems (s : Slice) (h : Heap) : List OperationType :=
  (h.getD s.array []).take s.len

/-- A slice lies within its backing array. -/
def Slice.WF (s : Slice) (h : Heap) : Prop :=
  s.len ≤ s.cap ∧ s.cap ≤ (h.getD s.array []).length

instance (s : Slice) (h : Heap) : Decidable (s.WF h) := by
  unfold Slice.WF; infer_instance

/-- Go `append(s, x)`.  With room left in the backing array the element is
written in place, behind the last element, and the array stays shared with
every other slice over it; otherwise a new array is allocated, which holds the
elements of the slice, `x`, and room for `spare s.cap` further elements, the
growth policy `spare` being that of the runtime. -/
def append (spare : Nat → Nat) (h : Heap) (s : Slice) (x : OperationType) :
    Slice × Heap :=
  if s.len < s.cap then
    (⟨s.array, s.len + 1, s.cap⟩, h.set s.array ((h.getD s.array []).set s.len x))
  else
    (⟨h.length, s.len + 1, s.len + 1 + spare s.cap⟩,
     h ++ [s.elems h ++ [x] ++ List.replicate (spare s.cap) ""])

/-- The growth policy of the Go runtime for small slices of strings: a full
array of capacity `0`, `1`, `2`, `4` is replaced by one of capacity `1`, `2`,
`4`, `8`. -/
def doubling (cap : Nat) : Nat := cap - 1

/-- The struct `Rule`. -/
structure Rule where
  APIGroups : List String
  APIVersions : List String
  Resources : List String
  Scope : ScopeType
deriving DecidableEq, Repr

/-- The struct `RuleWithOperations`, which embeds `Rule`. -/
structure RuleWithOperations extends Rule where
  Operations : Slice
deriving DecidableEq, Repr

/-- Constructor `NewRule`: the zero value of the struct. -/
def NewRule : RuleWithOperations :=
  { APIGroups := [], APIVersions := [], Resources := [], Scope := "",
    Operations := Slice.nil }

/-- Method `OneResource`. -/
def RuleWithOperations.OneResource (rule : RuleWithOperations)
    (apiGroup apiVersion resource : String) : RuleWithOperations :=
  { rule with APIGroups := [apiGroup], APIVersions := [apiVersion],
              Resources := [resource] }

/-- Method `NamespacedScope`. -/
def RuleWithOperations.NamespacedScope (v1 : V1Consts) (rule : RuleWithOperations) :
    RuleWithOperations :=
  { rule with Scope := v1.NamespacedScope }

/-- The common body of the `For...` methods: `rule.Operations =
append(rule.Operations, op)` on the copy of the rule, which is returned. -/
def RuleWithOperations.appendOperation (spare : Nat → Nat) (h : Heap)
    (rule : RuleWithOperations) (op : OperationType) : RuleWithOperations × Heap :=
  let (s, h1) := append spare h rule.Operations op
  ({ rule with Operations := s }, h1)

/-- Method `ForCreate`. -/
def RuleWithOperations.ForCreate (v1 : V1Consts) (spare : Nat → Nat) (h : Heap)
    (rule : RuleWithOperations) : RuleWithOperations × Heap :=
  rule.appendOperation spare h v1.Create

/-- Method `ForUpdate`. -/
def RuleWithOperations.ForUpdate (v1 : V1Consts) (spare : Nat → Nat) (h : Heap)
    (rule : RuleWithOperations) : RuleWithOperations × Heap :=
  rule.appendOperation spare h v1.Update

/-- Method `ForDelete`. -/
def RuleWithOperations.ForDelete (v1 : V1Consts) (spare : Nat → Nat) (h : Heap)
    (rule : RuleWithOperations) : RuleWithOperations × Heap :=
  rule.appendOperation spare h v1.Delete

/-- Method `ForAll`. -/
def RuleWithOperations.ForAll (v1 : V1Consts) (spare : Nat → Nat) (h : Heap)
    (rule : RuleWithOperations) : RuleWithOperations × Heap :=
  rule.appendOperation spare h v1.OperationAll

/-- The operation steps of the builder. -/
inductive OperationStep where
  | ForCreate | ForUpdate | ForDelete | ForAll
deriving DecidableEq, Repr

/-- The operation type a step stands for. -/
def OperationStep.operationType (v1 : V1Consts) : OperationStep → OperationType
  | .ForCreate => v1.Create
  | .ForUpdate => v1.Update
  | .ForDelete => v1.Delete
  | .ForAll => v1.OperationAll

/-- One operation step, applied to a rule. -/
def OperationStep.apply (v1 : V1Consts) (spare : Nat → Nat) (h : Heap)
    (rule : RuleWithOperations) : OperationStep → RuleWithOperations × Heap
  | .ForCreate => rule.ForCreate v1 spare h
  | .ForUpdate => rule.ForUpdate v1 spare h
  | .ForDelete => rule.ForDelete v1 spare h
  | .ForAll => rule.ForAll v1 spare h

/-- A chain of operation steps, each applied to the rule the one before
returned. -/
def applySteps (v1 : V1Consts) (spare : Nat → Nat) :
    List OperationStep → Heap → RuleWithOperations → RuleWithOperations × Heap
  | [], h, rule => (rule, h)
  | step :: steps, h, rule =>
    let (rule1, h1) := step.apply v1 spare h rule
    applySteps v1 spare steps h1 rule1

/-- The constants with the values they have in the Kubernetes API. -/
def sampleV1 : V1Consts := ⟨"*", "CREATE", "UPDATE", "DELETE", "Namespaced"⟩

/-- The rule `NewRule().ForCreate().ForUpdate().ForDelete()`, with the heap it
is built in. -/
def sampleBase : RuleWithOperations × Heap :=
  applySteps sampleV1 doubling [.ForCreate, .ForUpdate, .ForDelete] [] NewRule

end Webhooks

namespace Metrics

/-! ## Properties of the gauge-family operations -/

theorem lookup_nil (lvs : LabelValues) : lookup lvs [] = none := rfl

theorem getOrCreate_nil (lvs : LabelValues) : getOrCreate lvs [] = [(lvs, 0)] := rfl

theorem store_singleton (lvs : LabelValues) (v w : Int) :
    store lvs v [(lvs, w)] = [(lvs, v)] := by
  simp [store]

theorem lookup_append (lvs : LabelValues) (m n : MetricMap) :
    lookup lvs (m ++ n) = (lookup lvs m).orElse (fun _ => lookup lvs n) := by
  induction m with
  | nil => simp [lookup]
  | cons e m ih =>
    obtain ⟨k, w⟩ := e
    by_cases hk : k = lvs <;> simp [lookup, hk, ih]

theorem lookup_store_ne (lvs k : LabelValues) (v : Int) (m : MetricMap) (h : k ≠ lvs) :
    lookup k (store lvs v m) = lookup k m := by
  induction m with
  | nil => rfl
  | cons e m ih =>
    obtain ⟨k1, w⟩ := e
    by_cases h1 : k1 = lvs
    · have h2 : ¬ lvs = k := fun h3 => h h3.symm
      simp [store, lookup, h1, h2]
    · by_cases h2 : k1 = k
      · subst h2
        simp [store, lookup, h]
      · simp [store, lookup, h1, h2, ih]

theorem lookup_store_same (lvs : LabelValues) (v w : Int) (m : MetricMap)
    (h : lookup lvs m = some w) : lookup lvs (store lvs v m) = some v := by
  induction m with
  | nil => simp [lookup] at h
  | cons e m ih =>
    obtain ⟨k1, w1⟩ := e
    by_cases h1 : k1 = lvs
    · simp [store, lookup, h1]
    · simp only [lookup, if_neg h1] at h
      simp [store, lookup, h1, ih h]

theorem lookup_getOrCreate_ne (lvs k : LabelValues) (m : MetricMap) (h : k ≠ lvs) :
    lookup k (getOrCreate lvs m) = lookup k m := by
  unfold getOrCreate
  cases hl : lookup lvs m with
  | some w => rfl
  | none =>
    have h2 : ¬ lvs = k := fun h3 => h h3.symm
    simp only [lookup_append, lookup, if_neg h2]
    cases lookup k m <;> rfl

theorem lookup_getOrCreate_same (lvs : LabelValues) (m : MetricMap) :
    ∃ w, lookup lvs (getOrCreate lvs m) = some w := by
  unfold getOrCreate
  cases hl : lookup lvs m with
  | some w => exact ⟨w, hl⟩
  | none => exact ⟨0, by simp [lookup_append, hl, lookup]⟩

theorem keys_store (lvs : LabelValues) (v : Int) (m : MetricMap) :
    (store lvs v m).map Prod.fst = m.map Prod.fst := by
  induction m with
  | nil => rfl
  | cons e m ih =>
    obtain ⟨k1, w1⟩ := e
    by_cases h1 : k1 = lvs <;> simp [store, h1, ih]

theorem lookup_eq_none_iff (lvs : LabelValues) (m : MetricMap) :
    lookup lvs m = none ↔ lvs ∉ m.map Prod.fst := by
  induction m with
  | nil => simp [lookup]
  | cons e m ih =>
    obtain ⟨k1, w1⟩ := e
    by_cases h1 : k1 = lvs
    · simp [lookup, h1]
    · have h2 : ¬ lvs = k1 := fun h3 => h1 h3.symm
      simp [lookup, h1, h2, ih]

theorem getOrCreate_of_lookup (lvs : LabelValues) (w : Int) (m : MetricMap)
    (h : lookup lvs m = some w) : getOrCreate lvs m = m := by
  simp [getOrCreate, h]

theorem keys_nodup_getOrCreate (lvs : LabelValues) (m : MetricMap)
    (h : (m.map Prod.fst).Nodup) : ((getOrCreate lvs m).map Prod.fst).Nodup := by
  unfold getOrCreate
  cases hl : lookup lvs m with
  | some w => exact h
  | none =>
    have hn := (lookup_eq_none_iff lvs m).mp hl
    simp only [List.map_append, List.map_cons, List.map_nil]
    refine List.Nodup.append h (List.nodup_singleton lvs) ?_
    intro x hx hx1
    rw [List.mem_singleton] at hx1
    exact hn (hx1 ▸ hx)

theorem tupleCount_eq_zero (lvs : LabelValues) (m : MetricMap)
    (h : lvs ∉ m.map Prod.fst) : tupleCount lvs m = 0 := by
  induction m with
  | nil => rfl
  | cons e m ih =>
    obtain ⟨k1, w1⟩ := e
    simp only [List.map_cons, List.mem_cons, not_or] at h
    have h1 : ¬ k1 = lvs := fun h2 => h.1 h2.symm
    simp [tupleCount, h1, ih h.2]

/-- In a table of distinct tuples a tuple that is present has one entry. -/
theorem tupleCount_eq_one (lvs : LabelValues) (w : Int) (m : MetricMap)
    (hnd : (m.map Prod.fst).Nodup) (h : lookup lvs m = some w) :
    tupleCount lvs m = 1 := by
  induction m with
  | nil => simp [lookup] at h
  | cons e m ih =>
    obtain ⟨k1, w1⟩ := e
    simp only [List.map_cons, List.nodup_cons] at hnd
    by_cases h1 : k1 = lvs
    · subst h1
      simp [tupleCount, tupleCount_eq_zero _ _ hnd.1]
    · simp only [lookup, if_neg h1] at h
      simp [tupleCount, h1, ih hnd.2 h]

theorem tupleCount_store (lvs k : LabelValues) (v : Int) (m : MetricMap) :
    tupleCount k (store lvs v m) = tupleCount k m := by
  induction m with
  | nil => rfl
  | cons e m ih =>
    obtain ⟨k1, w1⟩ := e
    by_cases h1 : k1 = lvs <;> simp [store, tupleCount, h1, ih]

theorem store_store (lvs : LabelValues) (v w : Int) (m : MetricMap) :
    store lvs v (store lvs w m) = store lvs v m := by
  induction m with
  | nil => rfl
  | cons e m ih =>
    obtain ⟨k1, w1⟩ := e
    by_cases h1 : k1 = lvs <;> simp [store, h1, ih]

/-- A second set at the same tuple finds the gauge in place and overwrites it. -/
theorem store_getOrCreate_store (lvs : LabelValues) (v w : Int) (m : MetricMap) :
    store lvs v (getOrCreate lvs (store lvs w (getOrCreate lvs m))) =
      store lvs v (getOrCreate lvs m) := by
  obtain ⟨w1, hw1⟩ := lookup_getOrCreate_same lvs m
  rw [getOrCreate_of_lookup lvs w _ (lookup_store_same lvs w w1 _ hw1), store_store]

theorem float64_one : float64 1 = 1 := by decide

theorem float64_zero : float64 0 = 0 := by decide

theorem float64_neg_one : float64 (-1) = -1 := by decide

theorem excessBits_of_lt (fuel a : Nat) (h : a < 2 ^ 53) : excessBits fuel a = 0 := by
  cases fuel with
  | zero => rfl
  | succ k => simp only [excessBits, if_pos h]

/-- The conversion is exact up to magnitude `2 ^ 53`. -/
theorem float64_exact (n : Int) (h : n.natAbs ≤ 2 ^ 53) : float64 n = n := by
  rcases Nat.lt_or_ge n.natAbs (2 ^ 53) with hlt | hge
  · simp [float64, excessBits_of_lt _ _ hlt, Nat.mod_one, Int.sign_mul_abs]
  · have ha : n.natAbs = 2 ^ 53 := Nat.le_antisymm h hge
    rcases Int.natAbs_eq n with hn | hn
    · rw [hn, ha]; decide
    · rw [hn, ha]; decide

/-! ## What each publisher returns -/

theorem SetRhmiVersions_eq (stage version toVersion : String) (ts : Int) (r : Registry) :
    SetRhmiVersions stage version toVersion ts r =
      some { r with
        RHMIVersion := [([stage, version, toVersion], float64 ts)]
        RHOAMVersion := [([stage, version, toVersion], float64 ts)] } := by
  simp [SetRhmiVersions, GaugeVec.WithLabelValues, GaugeVec.Reset,
    RHMIVersion_labelNames, RHOAMVersion_labelNames, Gauge.Set, getOrCreate_nil,
    store_singleton]

theorem SetRHMIStatus_eq (installation : RHMI) (r : Registry) :
    SetRHMIStatus (some installation) r =
      some { r with
        RHMIStatus := if installation.Status.Stage = "" then []
          else [([installation.Status.Stage], 1)]
        RHOAMStatus := if installation.Status.Stage = "" then []
          else [([installation.Status.Stage], 1)] } := by
  by_cases h : installation.Status.Stage = ""
  · simp [SetRHMIStatus, GaugeVec.Reset, h]
  · simp [SetRHMIStatus, GaugeVec.Reset, GaugeVec.With, valuesInOrder, List.lookup,
      RHMIStatus_labelNames, RHOAMStatus_labelNames, Gauge.Set, getOrCreate_nil,
      store_singleton, float64_one, h]

theorem SetPreflightStatus_eq (c : PreflightStatusConsts) (status : String)
    (r : Registry) :
    SetPreflightStatus c status r =
      some { r with
        RHMIPreflightStatus := [([status], float64 (preflightNumberStatus c status))]
        RHOAMPreflightStatus := [([status], float64 (preflightNumberStatus c status))] } := by
  simp [SetPreflightStatus, GaugeVec.WithLabelValues, GaugeVec.Reset,
    RHMIPreflightStatus_labelNames, RHOAMPreflightStatus_labelNames, Gauge.Set,
    getOrCreate_nil, store_singleton]

theorem SetQuota_eq (stage quota toQuota : String) (r : Registry) :
    SetQuota stage quota toQuota r =
      some { r with Quota := [([stage, quota, toQuota], 1)] } := by
  simp [SetQuota, GaugeVec.WithLabelValues, GaugeVec.Reset, Quota_labelNames, Gauge.Set,
    getOrCreate_nil, store_singleton, float64_one]

theorem SetThreeScaleUserAction_eq (httpStatus : Int) (username action : String)
    (r : Registry) :
    SetThreeScaleUserAction httpStatus username action r =
      some { r with
        ThreeScaleUserAction := store [username, action] (float64 httpStatus)
          (getOrCreate [username, action] r.ThreeScaleUserAction) } := by
  simp [SetThreeScaleUserAction, GaugeVec.WithLabelValues,
    ThreeScaleUserAction_labelNames, Gauge.Set]

theorem SetRHMIInfo_eq (installation : RHMI) (r : Registry) :
    SetRHMIInfo (some installation) r =
      some { r with
        RHMIInfo := getOrCreate [installation.Spec.UseClusterStorage,
          installation.Spec.MasterURL, installation.Spec.Type_, installation.Name,
          installation.Namespace, installation.Spec.NamespacePrefix,
          sprintfBool installation.Spec.OperatorsInProductNamespace,
          installation.Spec.RoutingSubdomain,
          sprintfBool installation.Spec.SelfSignedCerts] r.RHMIInfo } := by
  simp [SetRHMIInfo, GaugeVec.WithLabelValues, RHMIInfo_labelNames]

/-! ## Properties of the publishers -/

/-- C2, as stated, fails: after `SetRhmiVersions("complete", "1.0.0", "",
9007199254740993)` on the empty registry the value of the tuple is
`9007199254740992`, the nearest `float64`, and not the timestamp. -/
theorem SetRhmiVersions_value_not_timestamp :
    (SetRhmiVersions "complete" "1.0.0" "" 9007199254740993 Registry.empty).map
        (fun r => (r.RHMIVersion, r.RHOAMVersion))
      = some ([(["complete", "1.0.0", ""], 9007199254740992)],
              [(["complete", "1.0.0", ""], 9007199254740992)]) ∧
    (9007199254740992 : Int) ≠ 9007199254740993 := by
  decide

/-- C2, amended: for every prior content of the `RHMIVersion` and `RHOAMVersion`
families and all arguments, `SetRhmiVersions(stage, version, toVersion,
firstInstallTimestamp)` returns and leaves each of the two families with exactly
one tuple, `(stage, version, toVersion)`, whose value is
`float64(firstInstallTimestamp)`; every other tuple, so every other tuple of an
earlier call, is absent; the value is the timestamp itself unless the magnitude
of the timestamp exceeds `2 ^ 53`. -/
theorem SetRhmiVersions_single_tuple (stage version toVersion : String)
    (firstInstallTimestamp : Int) (r : Registry) :
    ∃ r1, SetRhmiVersions stage version toVersion firstInstallTimestamp r = some r1 ∧
      r1.RHMIVersion = [([stage, version, toVersion], float64 firstInstallTimestamp)] ∧
      r1.RHOAMVersion = [([stage, version, toVersion], float64 firstInstallTimestamp)] ∧
      (∀ k, k ≠ [stage, version, toVersion] →
        lookup k r1.RHMIVersion = none ∧ lookup k r1.RHOAMVersion = none) ∧
      (float64 firstInstallTimestamp = firstInstallTimestamp ∨
        2 ^ 53 < firstInstallTimestamp.natAbs) := by
  refine ⟨_, SetRhmiVersions_eq stage version toVersion firstInstallTimestamp r,
    rfl, rfl, ?_, ?_⟩
  · intro k hk
    have hk1 : ¬ [stage, version, toVersion] = k := fun h => hk h.symm
    constructor <;> simp [lookup, hk1]
  · rcases Nat.lt_or_ge (2 ^ 53) firstInstallTimestamp.natAbs with h | h
    · exact Or.inr h
    · exact Or.inl (float64_exact _ h)

/-- C2, the scenario of the claim: publishing `("complete", "1.0.0", "",
1700000000)` and then `("upgrading", "1.0.0", "1.1.0", 1700000500)` leaves only
the second tuple, with value `1700000500`. -/
theorem SetRhmiVersions_single_tuple_witness :
    ∃ r1 r2, SetRhmiVersions "complete" "1.0.0" "" 1700000000 Registry.empty = some r1 ∧
      SetRhmiVersions "upgrading" "1.0.0" "1.1.0" 1700000500 r1 = some r2 ∧
      r2.RHMIVersion = [(["upgrading", "1.0.0", "1.1.0"], 1700000500)] ∧
      r2.RHOAMVersion = [(["upgrading", "1.0.0", "1.1.0"], 1700000500)] := by
  obtain ⟨r1, h1, -⟩ :=
    SetRhmiVersions_single_tuple "complete" "1.0.0" "" 1700000000 Registry.empty
  obtain ⟨r2, h2, h3, h4, -, -⟩ :=
    SetRhmiVersions_single_tuple "upgrading" "1.0.0" "1.1.0" 1700000500 r1
  have hv : float64 1700000500 = 1700000500 := by decide
  rw [hv] at h3 h4
  exact ⟨r1, r2, h1, h2, h3, h4⟩

/-- C3: for every prior content of the `RHMIStatus` and `RHOAMStatus` families
and every installation, `SetRHMIStatus(installation)` returns; when the stage of
the installation is the empty string both families are left with zero tuples,
otherwise each is left with exactly one tuple, `(stage)`, with value `1`. -/
theorem SetRHMIStatus_single_tuple (installation : RHMI) (r : Registry) :
    ∃ r1, SetRHMIStatus (some installation) r = some r1 ∧
      r1.RHMIStatus =
        (if installation.Status.Stage = "" then []
         else [([installation.Status.Stage], 1)]) ∧
      r1.RHOAMStatus =
        (if installation.Status.Stage = "" then []
         else [([installation.Status.Stage], 1)]) := by
  exact ⟨_, SetRHMIStatus_eq installation r, rfl, rfl⟩

/-- C4: for every prior content of the two preflight families and every status,
`SetPreflightStatus(status)` returns and leaves each of the two families with
exactly one tuple, labelled `(status)`; in particular, with distinct constants,
publishing `PreflightSuccess` and then `PreflightFail` leaves only the fail
tuple, and the success tuple is absent. -/
theorem SetPreflightStatus_single_tuple (c : PreflightStatusConsts) (status : String)
    (r : Registry) (hc : c.PreflightFail ≠ c.PreflightSuccess) :
    (∃ r1, SetPreflightStatus c status r = some r1 ∧
      r1.RHMIPreflightStatus.map Prod.fst = [[status]] ∧
      r1.RHOAMPreflightStatus.map Prod.fst = [[status]]) ∧
    (∃ r1 r2, SetPreflightStatus c c.PreflightSuccess r = some r1 ∧
      SetPreflightStatus c c.PreflightFail r1 = some r2 ∧
      r2.RHMIPreflightStatus.map Prod.fst = [[c.PreflightFail]] ∧
      r2.RHOAMPreflightStatus.map Prod.fst = [[c.PreflightFail]] ∧
      lookup [c.PreflightSuccess] r2.RHMIPreflightStatus = none ∧
      lookup [c.PreflightSuccess] r2.RHOAMPreflightStatus = none) := by
  have key : ∀ (st : String) (r0 : Registry), ∃ r1, SetPreflightStatus c st r0 = some r1 ∧
      r1.RHMIPreflightStatus = [([st], float64 (preflightNumberStatus c st))] ∧
      r1.RHOAMPreflightStatus = [([st], float64 (preflightNumberStatus c st))] := by
    intro st r0
    exact ⟨_, SetPreflightStatus_eq c st r0, rfl, rfl⟩
  constructor
  · obtain ⟨r1, h1, h2, h3⟩ := key status r
    exact ⟨r1, h1, by simp [h2], by simp [h3]⟩
  · obtain ⟨r1, h1, -, -⟩ := key c.PreflightSuccess r
    obtain ⟨r2, h2, h3, h4⟩ := key c.PreflightFail r1
    refine ⟨r1, r2, h1, h2, by simp [h3], by simp [h4], ?_, ?_⟩
    · simp [h3, lookup, hc]
    · simp [h4, lookup, hc]

/-- C4 at a concrete input: success and then fail, from the empty registry. -/
theorem SetPreflightStatus_single_tuple_witness :
    (∃ r1, SetPreflightStatus sampleConsts "successful" Registry.empty = some r1 ∧
      r1.RHMIPreflightStatus.map Prod.fst = [["successful"]] ∧
      r1.RHOAMPreflightStatus.map Prod.fst = [["successful"]]) ∧
    (∃ r1 r2, SetPreflightStatus sampleConsts "successful" Registry.empty = some r1 ∧
      SetPreflightStatus sampleConsts "failed" r1 = some r2 ∧
      r2.RHMIPreflightStatus.map Prod.fst = [["failed"]] ∧
      r2.RHOAMPreflightStatus.map Prod.fst = [["failed"]] ∧
      lookup ["successful"] r2.RHMIPreflightStatus = none ∧
      lookup ["successful"] r2.RHOAMPreflightStatus = none) :=
  SetPreflightStatus_single_tuple sampleConsts "successful" Registry.empty (by decide)

/-- C5: with distinct constants, the value `SetPreflightStatus(status)` writes
is the same in both preflight families and is `-1` when the status is
`PreflightFail`, `+1` when it is `PreflightSuccess` and `0` when it is the
in-progress status. -/
theorem SetPreflightStatus_value (c : PreflightStatusConsts) (status : String)
    (r : Registry) (hfs : c.PreflightFail ≠ c.PreflightSuccess)
    (hpf : c.PreflightInProgress ≠ c.PreflightFail)
    (hps : c.PreflightInProgress ≠ c.PreflightSuccess) :
    ∃ r1 v, SetPreflightStatus c status r = some r1 ∧
      lookup [status] r1.RHMIPreflightStatus = some v ∧
      lookup [status] r1.RHOAMPreflightStatus = some v ∧
      (status = c.PreflightFail → v = -1) ∧
      (status = c.PreflightSuccess → v = 1) ∧
      (status = c.PreflightInProgress → v = 0) := by
  refine ⟨_, float64 (preflightNumberStatus c status),
    SetPreflightStatus_eq c status r, ?_, ?_, ?_, ?_, ?_⟩
  · simp [lookup]
  · simp [lookup]
  · intro h
    simp [preflightNumberStatus, h, float64_neg_one]
  · intro h
    have h1 : ¬ c.PreflightSuccess = c.PreflightFail := fun h2 => hfs h2.symm
    simp [preflightNumberStatus, h, h1, float64_one]
  · intro h
    simp [preflightNumberStatus, h, hpf, hps, float64_zero]

/-- C5 at a concrete input: the fail status, from the empty registry. -/
theorem SetPreflightStatus_value_witness :
    ∃ r1 v, SetPreflightStatus sampleConsts "failed" Registry.empty = some r1 ∧
      lookup ["failed"] r1.RHMIPreflightStatus = some v ∧
      lookup ["failed"] r1.RHOAMPreflightStatus = some v ∧
      ("failed" = sampleConsts.PreflightFail → v = -1) ∧
      ("failed" = sampleConsts.PreflightSuccess → v = 1) ∧
      ("failed" = sampleConsts.PreflightInProgress → v = 0) :=
  SetPreflightStatus_value sampleConsts "failed" Registry.empty (by decide) (by decide)
    (by decide)

/-- C6: for every prior content of the `Quota` family and every `stage`, `quota`
and `toQuota`, the call `SetQuota(stage, quota, toQuota)` returns and leaves the
`Quota` family with exactly one tuple, `(stage, quota, toQuota)`, whose value is
the constant `1`. -/
theorem SetQuota_single_tuple (stage quota toQuota : String) (r : Registry) :
    ∃ r1, SetQuota stage quota toQuota r = some r1 ∧
      r1.Quota = [([stage, quota, toQuota], 1)] :=
  ⟨_, SetQuota_eq stage quota toQuota r, rfl⟩

/-- C8, as stated, fails: after `SetThreeScaleUserAction(9007199254740993, "u",
"a")` the value of the tuple `("u", "a")` is `9007199254740992`, the nearest
`float64`, and not the status passed in. -/
theorem SetThreeScaleUserAction_value_not_status :
    (SetThreeScaleUserAction 9007199254740993 "u" "a" Registry.empty).map
        (fun r => lookup ["u", "a"] r.ThreeScaleUserAction)
      = some (some 9007199254740992) ∧
    (9007199254740992 : Int) ≠ 9007199254740993 := by
  decide

/-- C8, amended: for every prior content of the `ThreeScaleUserAction` family and
all arguments, `SetThreeScaleUserAction(httpStatus, username, action)` returns;
afterwards the tuple `(username, action)` has value `float64(httpStatus)`, which
is `httpStatus` itself unless its magnitude exceeds `2 ^ 53`, and every other
tuple is present or absent as before, with its previous value; hence a following
set of `(username, b)` with `b ≠ action` leaves both tuples present. -/
theorem SetThreeScaleUserAction_frame (httpStatus : Int) (username action : String)
    (r : Registry) :
    ∃ r1, SetThreeScaleUserAction httpStatus username action r = some r1 ∧
      lookup [username, action] r1.ThreeScaleUserAction = some (float64 httpStatus) ∧
      (∀ k, k ≠ [username, action] →
        lookup k r1.ThreeScaleUserAction = lookup k r.ThreeScaleUserAction) ∧
      (float64 httpStatus = httpStatus ∨ 2 ^ 53 < httpStatus.natAbs) ∧
      (∀ (v2 : Int) (b : String), b ≠ action →
        ∃ r2, SetThreeScaleUserAction v2 username b r1 = some r2 ∧
          lookup [username, action] r2.ThreeScaleUserAction = some (float64 httpStatus) ∧
          lookup [username, b] r2.ThreeScaleUserAction = some (float64 v2)) := by
  have same : ∀ (v : Int) (k : LabelValues) (m : MetricMap),
      lookup k (store k v (getOrCreate k m)) = some v := by
    intro v k m
    obtain ⟨w, hw⟩ := lookup_getOrCreate_same k m
    exact lookup_store_same k v w _ hw
  have other : ∀ (v : Int) (k k1 : LabelValues) (m : MetricMap), k1 ≠ k →
      lookup k1 (store k v (getOrCreate k m)) = lookup k1 m := by
    intro v k k1 m hk
    rw [lookup_store_ne k k1 v _ hk, lookup_getOrCreate_ne k k1 m hk]
  refine ⟨_, SetThreeScaleUserAction_eq httpStatus username action r, same _ _ _,
    fun k hk => other _ _ _ _ hk, ?_, ?_⟩
  · rcases Nat.lt_or_ge (2 ^ 53) httpStatus.natAbs with h | h
    · exact Or.inr h
    · exact Or.inl (float64_exact _ h)
  · intro v2 b hb
    refine ⟨_, SetThreeScaleUserAction_eq v2 username b _, ?_, same _ _ _⟩
    have hne : [username, action] ≠ [username, b] := by
      intro h
      simp only [List.cons.injEq, true_and, and_true] at h
      exact hb h.symm
    show lookup [username, action] (store [username, b] (float64 v2)
      (getOrCreate [username, b] _)) = _
    rw [other _ _ _ _ hne]
    exact same _ _ _

/-- C8, the scenario of the claim: status `200` for `("u", "a")` and then `404`
for `("u", "b")` leaves both tuples present, each with its own value. -/
theorem SetThreeScaleUserAction_frame_witness :
    ∃ r1 r2, SetThreeScaleUserAction 200 "u" "a" Registry.empty = some r1 ∧
      SetThreeScaleUserAction 404 "u" "b" r1 = some r2 ∧
      lookup ["u", "a"] r2.ThreeScaleUserAction = some 200 ∧
      lookup ["u", "b"] r2.ThreeScaleUserAction = some 404 := by
  obtain ⟨r1, h1, -, -, -, h2⟩ := SetThreeScaleUserAction_frame 200 "u" "a" Registry.empty
  obtain ⟨r2, h3, h4, h5⟩ := h2 404 "b" (by decide)
  have ha : float64 200 = 200 := by decide
  have hb : float64 404 = 404 := by decide
  rw [ha] at h4
  rw [hb] at h5
  exact ⟨r1, r2, h1, h3, h4, h5⟩

/-- C9: for every prior content of the `ThreeScaleUserAction` family,
`ResetThreeScaleUserAction()` returns and leaves the family with zero tuples. -/
theorem ResetThreeScaleUserAction_empty (r : Registry) :
    ∃ r1, ResetThreeScaleUserAction r = some r1 ∧ r1.ThreeScaleUserAction = [] :=
  ⟨_, rfl, rfl⟩

/-- C10: `SetThreeScaleUserAction` is an idempotent upsert: calling it twice in
a row with the same arguments yields the state one call yields; a second call
with the same `(username, action)` and any other status overwrites the value and
leaves the list of tuples as it was, so that, the tuples of the family being
distinct to begin with, the family holds exactly one tuple for that key. -/
theorem SetThreeScaleUserAction_idempotent (httpStatus httpStatus2 : Int)
    (username action : String) (r : Registry) :
    (SetThreeScaleUserAction httpStatus username action r).bind
        (SetThreeScaleUserAction httpStatus username action)
      = SetThreeScaleUserAction httpStatus username action r ∧
    ∃ r1 r2, SetThreeScaleUserAction httpStatus username action r = some r1 ∧
      SetThreeScaleUserAction httpStatus2 username action r1 = some r2 ∧
      lookup [username, action] r2.ThreeScaleUserAction = some (float64 httpStatus2) ∧
      r2.ThreeScaleUserAction.map Prod.fst = r1.ThreeScaleUserAction.map Prod.fst ∧
      ((r.ThreeScaleUserAction.map Prod.fst).Nodup →
        tupleCount [username, action] r2.ThreeScaleUserAction = 1) := by
  have twice : ∀ v2 : Int,
      SetThreeScaleUserAction v2 username action
          { r with
            ThreeScaleUserAction := store [username, action] (float64 httpStatus)
              (getOrCreate [username, action] r.ThreeScaleUserAction) }
        = some { r with
            ThreeScaleUserAction := store [username, action] (float64 v2)
              (getOrCreate [username, action] r.ThreeScaleUserAction) } := by
    intro v2
    rw [SetThreeScaleUserAction_eq]
    simp only [store_getOrCreate_store]
  obtain ⟨w, hw⟩ := lookup_getOrCreate_same [username, action] r.ThreeScaleUserAction
  refine ⟨?_, _, _, SetThreeScaleUserAction_eq httpStatus username action r,
    twice httpStatus2, lookup_store_same _ _ w _ hw, ?_, ?_⟩
  · rw [SetThreeScaleUserAction_eq, Option.some_bind]
    exact twice httpStatus
  · simp only [keys_store]
  · intro hnd
    show tupleCount [username, action] (store [username, action] (float64 httpStatus2)
      (getOrCreate [username, action] r.ThreeScaleUserAction)) = 1
    rw [tupleCount_store]
    exact tupleCount_eq_one _ w _ (keys_nodup_getOrCreate _ _ hnd) hw

/-- Every publisher call returns and keeps each latched family at one tuple at
most. -/
theorem Call.apply_latched (c : PreflightStatusConsts) (call : Call) (r : Registry)
    (h : Latched r) : ∃ r1, call.apply c r = some r1 ∧ Latched r1 := by
  obtain ⟨h1, h2, h3, h4, h5, h6, h7⟩ := h
  cases call with
  | SetRHMIInfo installation =>
    exact ⟨_, SetRHMIInfo_eq installation r, h1, h2, h3, h4, h5, h6, h7⟩
  | SetRHMIStatus installation =>
    refine ⟨_, SetRHMIStatus_eq installation r, ?_, ?_, h3, h4, h5, h6, h7⟩
    · show (if installation.Status.Stage = "" then [] else _ : MetricMap).length ≤ 1
      split <;> simp
    · show (if installation.Status.Stage = "" then [] else _ : MetricMap).length ≤ 1
      split <;> simp
  | SetRhmiVersions stage version toVersion ts =>
    exact ⟨_, SetRhmiVersions_eq stage version toVersion ts r, h1, h2, Nat.le_refl 1,
      Nat.le_refl 1, h5, h6, h7⟩
  | SetPreflightStatus status =>
    exact ⟨_, SetPreflightStatus_eq c status r, h1, h2, h3, h4, Nat.le_refl 1,
      Nat.le_refl 1, h7⟩
  | SetThreeScaleUserAction httpStatus username action =>
    exact ⟨_, SetThreeScaleUserAction_eq httpStatus username action r, h1, h2, h3, h4,
      h5, h6, h7⟩
  | ResetThreeScaleUserAction =>
    exact ⟨_, rfl, h1, h2, h3, h4, h5, h6, h7⟩
  | SetQuota stage quota toQuota =>
    exact ⟨_, SetQuota_eq stage quota toQuota r, h1, h2, h3, h4, h5, h6, Nat.le_refl 1⟩

theorem run_latched (c : PreflightStatusConsts) (calls : List Call) :
    ∀ r : Registry, Latched r → ∃ r1, run c calls r = some r1 ∧ Latched r1 := by
  induction calls with
  | nil => exact fun r h => ⟨r, rfl, h⟩
  | cons call calls ih =>
    intro r h
    obtain ⟨r1, h1, hl⟩ := Call.apply_latched c call r h
    obtain ⟨r2, h2, hl2⟩ := ih r1 hl
    exact ⟨r2, by simp [run, h1, h2], hl2⟩

/-- C1: starting from the registry in which every family is empty, every finite
sequence of publisher calls, in any order and with any arguments, runs to the
end, and afterwards each latched family (`RHMIStatus`, `RHOAMStatus`,
`RHMIVersion`, `RHOAMVersion`, `RHMIPreflightStatus`, `RHOAMPreflightStatus`,
`Quota`) holds at most one tuple. -/
theorem latched_after_every_call_sequence (c : PreflightStatusConsts)
    (calls : List Call) :
    ∃ r1, run c calls Registry.empty = some r1 ∧ Latched r1 :=
  run_latched c calls Registry.empty (by decide)

/-! ## The steps of the latching publishers -/

theorem SetQuota_ops_exec (stage quota toQuota : String) (r : Registry) :
    execOps (SetQuota_ops stage quota toQuota) r = SetQuota stage quota toQuota r := by
  rw [SetQuota_eq]
  simp [SetQuota_ops, execOps, Op.exec, Registry.family, Registry.setFamily,
    GaugeVec.WithLabelValues, GaugeVec.Reset, Quota_labelNames, Gauge.Set,
    getOrCreate_nil, store_singleton, float64_one]

theorem SetRhmiVersions_ops_exec (stage version toVersion : String) (ts : Int)
    (r : Registry) :
    execOps (SetRhmiVersions_ops stage version toVersion ts) r =
      SetRhmiVersions stage version toVersion ts r := by
  rw [SetRhmiVersions_eq]
  simp [SetRhmiVersions_ops, execOps, Op.exec, Registry.family, Registry.setFamily,
    GaugeVec.WithLabelValues, GaugeVec.Reset, RHMIVersion_labelNames,
    RHOAMVersion_labelNames, Gauge.Set, getOrCreate_nil, store_singleton]

theorem SetPreflightStatus_ops_exec (c : PreflightStatusConsts) (status : String)
    (r : Registry) :
    execOps (SetPreflightStatus_ops c status) r = SetPreflightStatus c status r := by
  rw [SetPreflightStatus_eq]
  simp [SetPreflightStatus_ops, execOps, Op.exec, Registry.family, Registry.setFamily,
    GaugeVec.WithLabelValues, GaugeVec.Reset, RHMIPreflightStatus_labelNames,
    RHOAMPreflightStatus_labelNames, Gauge.Set, getOrCreate_nil, store_singleton]

theorem SetRHMIStatus_ops_exec (installation : RHMI) (r : Registry) :
    execOps (SetRHMIStatus_ops installation) r = SetRHMIStatus (some installation) r := by
  rw [SetRHMIStatus_eq]
  by_cases h : installation.Status.Stage = ""
  · simp [SetRHMIStatus_ops, execOps, Op.exec, Registry.family,
      Registry.setFamily, GaugeVec.Reset, h]
  · simp [SetRHMIStatus_ops, execOps, Op.exec, Registry.family,
      Registry.setFamily, GaugeVec.With, valuesInOrder, List.lookup, GaugeVec.Reset,
      RHMIStatus_labelNames, RHOAMStatus_labelNames, Gauge.Set, getOrCreate_nil,
      store_singleton, float64_one, h]

/-- C7, as stated, fails: a snapshot taken after the first step of
`SetQuota("complete", "20", "")`, the reset, finds the `Quota` family empty,
which is neither its old content nor its new content. -/
theorem SetQuota_snapshot_sees_empty_family :
    (execOps ((SetQuota_ops "complete" "20" "").take 1) sampleRegistry).map
        (fun r => r.Quota) = some [] ∧
    sampleRegistry.Quota = [(["installing", "10", "20"], 1)] ∧
    (SetQuota "complete" "20" "" sampleRegistry).map (fun r => r.Quota)
      = some [(["complete", "20", ""], 1)] := by
  decide

/-- C7, amended: each latching publisher works on a family in separate steps, a
reset and then, for a tuple that is published, the creation of its gauge and the
set of its value.  A snapshot taken at any point during the call, after any
number `n` of steps, finds in each family of the publisher its fully-old
content, the empty family, the new tuple alone at the initial value `0`, or the
new tuple alone at its value; so a tuple of the old content is never observed
beside the new tuple unless the old content is observed unchanged.  For an
empty stage `SetRHMIStatus` publishes no tuple, and a snapshot finds the old
content or the empty family.  The steps taken together are the call. -/
theorem latching_publishers_snapshots (c : PreflightStatusConsts) (r : Registry)
    (n : Nat) :
    (∀ stage quota toQuota : String,
      execOps (SetQuota_ops stage quota toQuota) r = SetQuota stage quota toQuota r ∧
      ∃ r1, execOps ((SetQuota_ops stage quota toQuota).take n) r = some r1 ∧
        Observed r.Quota [stage, quota, toQuota] 1 r1.Quota) ∧
    (∀ (stage version toVersion : String) (ts : Int),
      execOps (SetRhmiVersions_ops stage version toVersion ts) r =
        SetRhmiVersions stage version toVersion ts r ∧
      ∃ r1, execOps ((SetRhmiVersions_ops stage version toVersion ts).take n) r = some r1 ∧
        Observed r.RHMIVersion [stage, version, toVersion] (float64 ts) r1.RHMIVersion ∧
        Observed r.RHOAMVersion [stage, version, toVersion] (float64 ts)
          r1.RHOAMVersion) ∧
    (∀ status : String,
      execOps (SetPreflightStatus_ops c status) r = SetPreflightStatus c status r ∧
      ∃ r1, execOps ((SetPreflightStatus_ops c status).take n) r = some r1 ∧
        Observed r.RHMIPreflightStatus [status]
          (float64 (preflightNumberStatus c status)) r1.RHMIPreflightStatus ∧
        Observed r.RHOAMPreflightStatus [status]
          (float64 (preflightNumberStatus c status)) r1.RHOAMPreflightStatus) ∧
    (∀ installation : RHMI,
      execOps (SetRHMIStatus_ops installation) r = SetRHMIStatus (some installation) r ∧
      ∃ r1, execOps ((SetRHMIStatus_ops installation).take n) r = some r1 ∧
        Observed r.RHMIStatus [installation.Status.Stage] 1 r1.RHMIStatus ∧
        Observed r.RHOAMStatus [installation.Status.Stage] 1 r1.RHOAMStatus ∧
        (installation.Status.Stage = "" →
          (r1.RHMIStatus = r.RHMIStatus ∨ r1.RHMIStatus = []) ∧
          (r1.RHOAMStatus = r.RHOAMStatus ∨ r1.RHOAMStatus = []))) := by
  refine ⟨?_, ?_, ?_, ?_⟩
  · intro stage quota toQuota
    refine ⟨SetQuota_ops_exec stage quota toQuota r, ?_⟩
    rcases n with _ | _ | _ | n <;>
      simp [SetQuota_ops, execOps, Op.exec, Registry.family, Registry.setFamily,
        GaugeVec.WithLabelValues, GaugeVec.Reset, Quota_labelNames, Gauge.Set,
        getOrCreate_nil, store_singleton, float64_one, Observed]
  · intro stage version toVersion ts
    refine ⟨SetRhmiVersions_ops_exec stage version toVersion ts r, ?_⟩
    rcases n with _ | _ | _ | _ | _ | _ | n <;>
      simp [SetRhmiVersions_ops, execOps, Op.exec, Registry.family, Registry.setFamily,
        GaugeVec.WithLabelValues, GaugeVec.Reset, RHMIVersion_labelNames,
        RHOAMVersion_labelNames, Gauge.Set, getOrCreate_nil, store_singleton, Observed]
  · intro status
    refine ⟨SetPreflightStatus_ops_exec c status r, ?_⟩
    rcases n with _ | _ | _ | _ | _ | _ | n <;>
      simp [SetPreflightStatus_ops, execOps, Op.exec, Registry.family,
        Registry.setFamily, GaugeVec.WithLabelValues, GaugeVec.Reset,
        RHMIPreflightStatus_labelNames, RHOAMPreflightStatus_labelNames, Gauge.Set,
        getOrCreate_nil, store_singleton, Observed]
  · intro installation
    refine ⟨SetRHMIStatus_ops_exec installation r, ?_⟩
    by_cases h : installation.Status.Stage = ""
    · rcases n with _ | _ | n <;>
        simp [SetRHMIStatus_ops, execOps, Op.exec, Registry.family,
          Registry.setFamily, GaugeVec.Reset, Observed, h]
    · rcases n with _ | _ | _ | _ | _ | _ | n <;>
        simp [SetRHMIStatus_ops, execOps, Op.exec, Registry.family,
          Registry.setFamily, GaugeVec.With, valuesInOrder, List.lookup, GaugeVec.Reset,
          RHMIStatus_labelNames, RHOAMStatus_labelNames, Gauge.Set, getOrCreate_nil,
          store_singleton, float64_one, Observed, h]

/-! ## The installation descriptor -/

theorem SetRHMIInfo_labelValues_eq (installation : RHMI) (r : Registry) :
    SetRHMIInfo (some installation) r =
      some { r with RHMIInfo := getOrCreate (infoLabelValues installation) r.RHMIInfo } :=
  SetRHMIInfo_eq installation r

/-- A sequence of `SetRHMIInfo` calls addresses the gauges of the installations
one after another. -/
theorem run_SetRHMIInfo (c : PreflightStatusConsts) (installations : List RHMI) :
    ∀ r : Registry, run c (installations.map Call.SetRHMIInfo) r =
      some { r with
        RHMIInfo := (installations.map infoLabelValues).foldl
          (fun m k => getOrCreate k m) r.RHMIInfo } := by
  induction installations with
  | nil => exact fun r => rfl
  | cons i is ih =>
    intro r
    simp only [List.map_cons, run, Call.apply, SetRHMIInfo_labelValues_eq,
      Option.some_bind, ih, List.foldl_cons]

theorem lookup_isSome_getOrCreate (lvs k : LabelValues) (m : MetricMap) :
    (lookup k (getOrCreate lvs m)).isSome ↔ (lookup k m).isSome ∨ k = lvs := by
  by_cases h : k = lvs
  · subst h
    obtain ⟨w, hw⟩ := lookup_getOrCreate_same k m
    simp [hw]
  · simp [lookup_getOrCreate_ne lvs k m h, h]

theorem lookup_isSome_foldl (ks : List LabelValues) (k : LabelValues) :
    ∀ m : MetricMap, (lookup k (ks.foldl (fun m k => getOrCreate k m) m)).isSome ↔
      (lookup k m).isSome ∨ k ∈ ks := by
  induction ks with
  | nil => intro m; simp
  | cons k1 ks ih =>
    intro m
    simp only [List.foldl_cons, ih, lookup_isSome_getOrCreate, List.mem_cons]
    tauto

theorem keys_nodup_foldl (ks : List LabelValues) :
    ∀ m : MetricMap, (m.map Prod.fst).Nodup →
      ((ks.foldl (fun m k => getOrCreate k m) m).map Prod.fst).Nodup := by
  induction ks with
  | nil => exact fun m h => h
  | cons k1 ks ih =>
    intro m h
    exact ih _ (keys_nodup_getOrCreate k1 m h)

theorem foldl_getOrCreate_same (lvs : LabelValues) (ks : List LabelValues)
    (h : ∀ k ∈ ks, k = lvs) :
    ks.foldl (fun m k => getOrCreate k m) [(lvs, 0)] = [(lvs, 0)] := by
  induction ks with
  | nil => rfl
  | cons k1 ks ih =>
    have h1 : k1 = lvs := h k1 (List.mem_cons_self k1 ks)
    have h2 : getOrCreate lvs [(lvs, 0)] = [(lvs, 0)] := by
      simp [getOrCreate, lookup]
    rw [List.foldl_cons, h1, h2]
    exact ih (fun k hk => h k (List.mem_cons_of_mem k1 hk))

/-- C11, as stated, fails: after `SetRHMIInfo` for an installation with
`use_cluster_storage = "true"` and namespace `redhat-rhmi-operator` on the empty
registry, the one tuple of `RHMIInfo` has value `0`, not `1`. -/
theorem SetRHMIInfo_value_is_zero :
    (SetRHMIInfo (some sampleInstallation) Registry.empty).map (fun r => r.RHMIInfo)
      = some [(["true", "", "managed", "rhmi", "redhat-rhmi-operator", "redhat-rhmi-",
                "false", "", "false"], 0)] ∧
    (0 : Int) ≠ 1 := by
  decide

/-- C11, amended: after `SetRHMIInfo(installation)` for a non-nil installation
on a registry whose `RHMIInfo` family is empty, the family holds exactly one
tuple, carrying the label values of the installation; its value is `0`, the
initial value of a gauge, since no value is written. -/
theorem SetRHMIInfo_single_tuple (installation : RHMI) (r : Registry)
    (h : r.RHMIInfo = []) :
    ∃ r1, SetRHMIInfo (some installation) r = some r1 ∧
      r1.RHMIInfo = [(infoLabelValues installation, 0)] := by
  refine ⟨_, SetRHMIInfo_labelValues_eq installation r, ?_⟩
  show getOrCreate (infoLabelValues installation) r.RHMIInfo = _
  rw [h, getOrCreate_nil]

/-- C11 at the installation of the claim, from the empty registry. -/
theorem SetRHMIInfo_single_tuple_witness :
    ∃ r1, SetRHMIInfo (some sampleInstallation) Registry.empty = some r1 ∧
      r1.RHMIInfo = [(infoLabelValues sampleInstallation, 0)] :=
  SetRHMIInfo_single_tuple sampleInstallation Registry.empty rfl

/-- C12, as stated, fails: two `SetRHMIInfo` calls whose installations differ in
`use_cluster_storage` leave two tuples in `RHMIInfo`. -/
theorem SetRHMIInfo_two_tuples :
    (run sampleConsts [Call.SetRHMIInfo sampleInstallation,
        Call.SetRHMIInfo sampleInstallation2] Registry.empty).map
      (fun r => r.RHMIInfo.map Prod.fst)
      = some [infoLabelValues sampleInstallation, infoLabelValues sampleInstallation2] ∧
    infoLabelValues sampleInstallation ≠ infoLabelValues sampleInstallation2 := by
  decide

/-- C12, amended: `SetRHMIInfo` never resets `RHMIInfo`.  After every finite
non-empty sequence of `SetRHMIInfo` calls on an empty family, the family holds
one tuple for each distinct tuple of label values among the installations of
the calls, that of the last call included, and no other tuple; it holds exactly
one tuple when the installations of all calls carry the same label values. -/
theorem SetRHMIInfo_one_tuple_per_label_values (c : PreflightStatusConsts)
    (installations : List RHMI) (last : RHMI) (r : Registry) (h : r.RHMIInfo = []) :
    ∃ r1, run c ((installations ++ [last]).map Call.SetRHMIInfo) r = some r1 ∧
      (lookup (infoLabelValues last) r1.RHMIInfo).isSome ∧
      (∀ k, (lookup k r1.RHMIInfo).isSome ↔
        ∃ i ∈ installations ++ [last], infoLabelValues i = k) ∧
      (r1.RHMIInfo.map Prod.fst).Nodup ∧
      ((∀ i ∈ installations, infoLabelValues i = infoLabelValues last) →
        r1.RHMIInfo = [(infoLabelValues last, 0)]) := by
  have hall : ∀ k, (lookup k (((installations ++ [last]).map infoLabelValues).foldl
      (fun m k => getOrCreate k m) r.RHMIInfo)).isSome ↔
      ∃ i ∈ installations ++ [last], infoLabelValues i = k := by
    intro k
    rw [lookup_isSome_foldl, h]
    simp only [lookup, Option.isSome_none, Bool.false_eq_true, false_or, List.mem_map]
  refine ⟨_, run_SetRHMIInfo c _ r, ?_, hall, ?_, ?_⟩
  · exact (hall _).mpr ⟨last, by simp, rfl⟩
  · exact keys_nodup_foldl _ _ (by rw [h]; exact List.nodup_nil)
  · intro hsame
    show ((installations ++ [last]).map infoLabelValues).foldl
      (fun m k => getOrCreate k m) r.RHMIInfo = _
    rw [h]
    cases installations with
    | nil => rfl
    | cons i is =>
      have hi : infoLabelValues i = infoLabelValues last :=
        hsame i (List.mem_cons_self i is)
      simp only [List.cons_append, List.map_cons, List.foldl_cons, getOrCreate_nil, hi]
      refine foldl_getOrCreate_same _ _ ?_
      intro k hk
      simp only [List.map_append, List.map_cons, List.map_nil, List.mem_append,
        List.mem_map, List.mem_singleton] at hk
      rcases hk with ⟨j, hj, rfl⟩ | rfl
      · exact hsame j (List.mem_cons_of_mem i hj)
      · rfl

/-- C12 at a concrete input: the same installation published twice. -/
theorem SetRHMIInfo_one_tuple_per_label_values_witness :
    ∃ r1, run sampleConsts (([sampleInstallation] ++ [sampleInstallation]).map
        Call.SetRHMIInfo) Registry.empty = some r1 ∧
      (lookup (infoLabelValues sampleInstallation) r1.RHMIInfo).isSome ∧
      (∀ k, (lookup k r1.RHMIInfo).isSome ↔
        ∃ i ∈ [sampleInstallation] ++ [sampleInstallation], infoLabelValues i = k) ∧
      (r1.RHMIInfo.map Prod.fst).Nodup ∧
      ((∀ i ∈ [sampleInstallation],
          infoLabelValues i = infoLabelValues sampleInstallation) →
        r1.RHMIInfo = [(infoLabelValues sampleInstallation, 0)]) :=
  SetRHMIInfo_one_tuple_per_label_values sampleConsts [sampleInstallation]
    sampleInstallation Registry.empty rfl

/-- C13: the tuple `SetRHMIInfo(installation)` addresses gives each declared
dimension of `RHMIInfo` the matching field of the installation, in declared
order; the two boolean labels are `"true"` or `"false"` according to the field
and take no other value.  The call returns, the tuple is present afterwards and
every other tuple is as before. -/
theorem SetRHMIInfo_labels (installation : RHMI) (r : Registry) :
    ∃ r1, SetRHMIInfo (some installation) r = some r1 ∧
      (lookup (infoLabelValues installation) r1.RHMIInfo).isSome ∧
      (∀ k, k ≠ infoLabelValues installation →
        lookup k r1.RHMIInfo = lookup k r.RHMIInfo) ∧
      RHMIInfo_labelNames.zip (infoLabelValues installation) =
        [("use_cluster_storage", installation.Spec.UseClusterStorage),
         ("master_url", installation.Spec.MasterURL),
         ("installation_type", installation.Spec.Type_),
         ("operator_name", installation.Name),
         ("namespace", installation.Namespace),
         ("namespace_prefix", installation.Spec.NamespacePrefix),
         ("operators_in_product_namespace",
           if installation.Spec.OperatorsInProductNamespace then "true" else "false"),
         ("routing_subdomain", installation.Spec.RoutingSubdomain),
         ("self_signed_certs",
           if installation.Spec.SelfSignedCerts then "true" else "false")] ∧
      RHMIInfo_labelNames.length = (infoLabelValues installation).length := by
  refine ⟨_, SetRHMIInfo_labelValues_eq installation r, ?_, ?_, rfl, rfl⟩
  · exact (lookup_isSome_getOrCreate _ _ _).mpr (Or.inr rfl)
  · intro k hk
    exact lookup_getOrCreate_ne _ k _ hk

/-! ## Empty stage, mirrored families, panics and frames -/

/-- C14, as stated, fails: `SetRhmiVersions` and `SetQuota` called with
`stage = ""` leave a tuple with an empty stage label in their families. -/
theorem empty_stage_tuple_inserted :
    (SetRhmiVersions "" "1.0.0" "" 1700000000 Registry.empty).map
        (fun r => (r.RHMIVersion, r.RHOAMVersion))
      = some ([(["", "1.0.0", ""], 1700000000)], [(["", "1.0.0", ""], 1700000000)]) ∧
    (SetQuota "" "10" "20" Registry.empty).map (fun r => r.Quota)
      = some [(["", "10", "20"], 1)] := by
  decide

/-- C14, amended: the rule for the empty stage holds for the stage families
only.  `SetRhmiVersions` and `SetQuota` have no guard on the stage: called with
`stage = ""` they return and leave each of their families with exactly one
tuple, whose stage label is the empty string. -/
theorem empty_stage_not_guarded (version toVersion quota toQuota : String)
    (firstInstallTimestamp : Int) (r : Registry) :
    (∃ r1, SetRhmiVersions "" version toVersion firstInstallTimestamp r = some r1 ∧
      r1.RHMIVersion = [(["", version, toVersion], float64 firstInstallTimestamp)] ∧
      r1.RHOAMVersion = [(["", version, toVersion], float64 firstInstallTimestamp)]) ∧
    (∃ r1, SetQuota "" quota toQuota r = some r1 ∧
      r1.Quota = [(["", quota, toQuota], 1)]) :=
  ⟨⟨_, SetRhmiVersions_eq "" version toVersion firstInstallTimestamp r, rfl, rfl⟩,
   ⟨_, SetQuota_eq "" quota toQuota r, rfl⟩⟩

/-- Every publisher call returns and keeps the paired families equal. -/
theorem Call.apply_mirrored (c : PreflightStatusConsts) (call : Call) (r : Registry)
    (h : Mirrored r) : ∃ r1, call.apply c r = some r1 ∧ Mirrored r1 := by
  obtain ⟨h1, h2, h3⟩ := h
  cases call with
  | SetRHMIInfo installation => exact ⟨_, SetRHMIInfo_eq installation r, h1, h2, h3⟩
  | SetRHMIStatus installation =>
    exact ⟨_, SetRHMIStatus_eq installation r, rfl, h2, h3⟩
  | SetRhmiVersions stage version toVersion ts =>
    exact ⟨_, SetRhmiVersions_eq stage version toVersion ts r, h1, rfl, h3⟩
  | SetPreflightStatus status =>
    exact ⟨_, SetPreflightStatus_eq c status r, h1, h2, rfl⟩
  | SetThreeScaleUserAction httpStatus username action =>
    exact ⟨_, SetThreeScaleUserAction_eq httpStatus username action r, h1, h2, h3⟩
  | ResetThreeScaleUserAction => exact ⟨_, rfl, h1, h2, h3⟩
  | SetQuota stage quota toQuota =>
    exact ⟨_, SetQuota_eq stage quota toQuota r, h1, h2, h3⟩

theorem run_mirrored (c : PreflightStatusConsts) (calls : List Call) :
    ∀ r : Registry, Mirrored r → ∃ r1, run c calls r = some r1 ∧ Mirrored r1 := by
  induction calls with
  | nil => exact fun r h => ⟨r, rfl, h⟩
  | cons call calls ih =>
    intro r h
    obtain ⟨r1, h1, hm⟩ := Call.apply_mirrored c call r h
    obtain ⟨r2, h2, hm2⟩ := ih r1 hm
    exact ⟨r2, by simp [run, h1, h2], hm2⟩

/-- C15: starting from the registry in which every family is empty, every finite
sequence of publisher calls runs to the end, and afterwards the content of
`RHMIStatus` equals that of `RHOAMStatus`, the content of `RHMIVersion` that of
`RHOAMVersion`, and the content of `RHMIPreflightStatus` that of
`RHOAMPreflightStatus`. -/
theorem mirrored_after_every_call_sequence (c : PreflightStatusConsts)
    (calls : List Call) :
    ∃ r1, run c calls Registry.empty = some r1 ∧
      r1.RHMIStatus = r1.RHOAMStatus ∧ r1.RHMIVersion = r1.RHOAMVersion ∧
      r1.RHMIPreflightStatus = r1.RHOAMPreflightStatus :=
  run_mirrored c calls Registry.empty (by decide)

/-- C18: no publisher call panics on the dimensions of its family.  The families
declare 9, 3, 1, 2 and 3 dimensions, and the status families the one label name
`stage`; `SetRHMIInfo` supplies 9 label values; and for every input and every
registry each publisher, with a non-nil installation where it takes one,
returns. -/
theorem publishers_never_panic (c : PreflightStatusConsts) (r : Registry) :
    (RHMIInfo_labelNames.length = 9 ∧
      RHMIVersion_labelNames.length = 3 ∧ RHOAMVersion_labelNames.length = 3 ∧
      RHMIPreflightStatus_labelNames.length = 1 ∧
      RHOAMPreflightStatus_labelNames.length = 1 ∧
      ThreeScaleUserAction_labelNames.length = 2 ∧ Quota_labelNames.length = 3 ∧
      RHMIStatus_labelNames = ["stage"] ∧ RHOAMStatus_labelNames = ["stage"]) ∧
    (∀ installation : RHMI, (infoLabelValues installation).length = 9 ∧
      (SetRHMIInfo (some installation) r).isSome) ∧
    (∀ installation : RHMI, (SetRHMIStatus (some installation) r).isSome) ∧
    (∀ (stage version toVersion : String) (ts : Int),
      (SetRhmiVersions stage version toVersion ts r).isSome) ∧
    (∀ status : String, (SetPreflightStatus c status r).isSome) ∧
    (∀ (httpStatus : Int) (username action : String),
      (SetThreeScaleUserAction httpStatus username action r).isSome) ∧
    (∀ stage quota toQuota : String, (SetQuota stage quota toQuota r).isSome) := by
  refine ⟨by decide, ?_, ?_, ?_, ?_, ?_, ?_⟩
  · intro installation
    exact ⟨rfl, by rw [SetRHMIInfo_eq]; rfl⟩
  · intro installation
    rw [SetRHMIStatus_eq]; rfl
  · intro stage version toVersion ts
    rw [SetRhmiVersions_eq]; rfl
  · intro status
    rw [SetPreflightStatus_eq]; rfl
  · intro httpStatus username action
    rw [SetThreeScaleUserAction_eq]; rfl
  · intro stage quota toQuota
    rw [SetQuota_eq]; rfl

/-- C19: each publisher modifies only its own families.  For every registry and
every input the call returns, and every family other than those of the
publisher, and each of the two plain gauges, has the content it had before. -/
theorem publishers_frame (c : PreflightStatusConsts) (call : Call) (r : Registry) :
    ∃ r1, call.apply c r = some r1 ∧
      (∀ f : Family, f ∉ call.families → r1.family f = r.family f) ∧
      r1.OperatorVersion = r.OperatorVersion ∧
      r1.RHMIStatusAvailable = r.RHMIStatusAvailable := by
  cases call with
  | SetRHMIInfo installation =>
    refine ⟨_, SetRHMIInfo_eq installation r, ?_, rfl, rfl⟩
    intro f hf
    cases f <;> first | rfl | exact absurd (by simp [Call.families]) hf
  | SetRHMIStatus installation =>
    refine ⟨_, SetRHMIStatus_eq installation r, ?_, rfl, rfl⟩
    intro f hf
    cases f <;> first | rfl | exact absurd (by simp [Call.families]) hf
  | SetRhmiVersions stage version toVersion ts =>
    refine ⟨_, SetRhmiVersions_eq stage version toVersion ts r, ?_, rfl, rfl⟩
    intro f hf
    cases f <;> first | rfl | exact absurd (by simp [Call.families]) hf
  | SetPreflightStatus status =>
    refine ⟨_, SetPreflightStatus_eq c status r, ?_, rfl, rfl⟩
    intro f hf
    cases f <;> first | rfl | exact absurd (by simp [Call.families]) hf
  | SetThreeScaleUserAction httpStatus username action =>
    refine ⟨_, SetThreeScaleUserAction_eq httpStatus username action r, ?_, rfl, rfl⟩
    intro f hf
    cases f <;> first | rfl | exact absurd (by simp [Call.families]) hf
  | ResetThreeScaleUserAction =>
    refine ⟨_, rfl, ?_, rfl, rfl⟩
    intro f hf
    cases f <;> first | rfl | exact absurd (by simp [Call.families]) hf
  | SetQuota stage quota toQuota =>
    refine ⟨_, SetQuota_eq stage quota toQuota r, ?_, rfl, rfl⟩
    intro f hf
    cases f <;> first | rfl | exact absurd (by simp [Call.families]) hf

end Metrics

namespace Webhooks

/-! ## Slices and `append` -/

/-- Reading the array that was just written. -/
theorem getD_set_self (h : Heap) (i : Nat) (a : List OperationType) (hi : i < h.length) :
    (h.set i a).getD i [] = a := by
  rw [List.getD_eq_getElem?_getD, List.getElem?_set_self hi]
  rfl

/-- An array of positive length is an allocated one. -/
theorem lt_length_of_getD (h : Heap) (i n : Nat) (hn : n < (h.getD i []).length) :
    i < h.length := by
  by_contra hi
  rw [List.getD_eq_getElem?_getD, List.getElem?_eq_none (Nat.le_of_not_lt hi)] at hn
  exact Nat.not_lt_zero _ hn

theorem Slice.WF_nil (h : Heap) : Slice.nil.WF h :=
  ⟨Nat.le_refl 0, Nat.zero_le _⟩

theorem Slice.length_elems (s : Slice) (h : Heap) (hs : s.WF h) :
    (s.elems h).length = s.len := by
  unfold Slice.elems
  rw [List.length_take]
  exact Nat.min_eq_left (Nat.le_trans hs.1 hs.2)

/-- A write behind the first `n` elements leaves them as they are. -/
theorem take_set_self (x : OperationType) (l : List OperationType) :
    ∀ n : Nat, (l.set n x).take n = l.take n := by
  induction l with
  | nil => intro n; rfl
  | cons y l ih =>
    intro n
    cases n with
    | zero => rfl
    | succ n => simp [List.set, List.take, ih n]

/-- Reading the array that was just allocated. -/
theorem getD_append_new (h : Heap) (a : List OperationType) :
    (h ++ [a]).getD h.length [] = a := by
  rw [List.getD_eq_getElem?_getD, List.getElem?_concat_length]
  rfl

/-- An allocation leaves the arrays allocated before as they are. -/
theorem getD_append_old (h : Heap) (a : List OperationType) (i : Nat)
    (hi : i < h.length) : (h ++ [a]).getD i [] = h.getD i [] := by
  rw [List.getD_eq_getElem?_getD, List.getD_eq_getElem?_getD,
    List.getElem?_append_left hi]

/-- The slice `append` returns holds the elements of its argument and then the
new element. -/
theorem append_elems (spare : Nat → Nat) (h : Heap) (s : Slice) (x : OperationType)
    (hs : s.WF h) :
    (append spare h s x).1.elems (append spare h s x).2 = s.elems h ++ [x] := by
  unfold append
  by_cases hlt : s.len < s.cap
  · have hlen : s.len < (h.getD s.array []).length := Nat.lt_of_lt_of_le hlt hs.2
    have hi : s.array < h.length := lt_length_of_getD h s.array s.len hlen
    simp only [if_pos hlt, Slice.elems, getD_set_self h _ _ hi, List.take_succ,
      List.getElem?_set_self hlen, Option.toList, take_set_self]
  · have hl := Slice.length_elems s h hs
    simp only [if_neg hlt, Slice.elems, getD_append_new] at hl ⊢
    exact List.take_left' (by rw [List.length_append, List.length_singleton, hl])

/-- The slice `append` returns lies within its backing array. -/
theorem append_WF (spare : Nat → Nat) (h : Heap) (s : Slice) (x : OperationType)
    (hs : s.WF h) : (append spare h s x).1.WF (append spare h s x).2 := by
  unfold append
  by_cases hlt : s.len < s.cap
  · have hlen : s.len < (h.getD s.array []).length := Nat.lt_of_lt_of_le hlt hs.2
    have hi : s.array < h.length := lt_length_of_getD h s.array s.len hlen
    simp only [if_pos hlt, Slice.WF, getD_set_self h _ _ hi, List.length_set]
    exact ⟨hlt, hs.2⟩
  · have hl := Slice.length_elems s h hs
    simp only [if_neg hlt, Slice.WF, getD_append_new, List.length_append,
      List.length_singleton, List.length_replicate, hl]
    exact ⟨Nat.le_add_right _ _, Nat.le_refl _⟩

/-- The slice that `append` was called on has the elements it had before: the
write, when there is one, falls behind its last element. -/
theorem append_keeps_argument (spare : Nat → Nat) (h : Heap) (s : Slice)
    (x : OperationType) (hs : s.WF h) :
    s.elems (append spare h s x).2 = s.elems h ∧ s.WF (append spare h s x).2 := by
  unfold append
  by_cases hlt : s.len < s.cap
  · have hlen : s.len < (h.getD s.array []).length := Nat.lt_of_lt_of_le hlt hs.2
    have hi : s.array < h.length := lt_length_of_getD h s.array s.len hlen
    simp only [if_pos hlt]
    refine ⟨?_, ?_⟩
    · simp only [Slice.elems, getD_set_self h _ _ hi, take_set_self]
    · simp only [Slice.WF, getD_set_self h _ _ hi, List.length_set]
      exact hs
  · simp only [if_neg hlt]
    by_cases hi : s.array < h.length
    · refine ⟨?_, ?_⟩
      · simp only [Slice.elems, getD_append_old h _ _ hi]
      · simp only [Slice.WF, getD_append_old h _ _ hi]
        exact hs
    · have h0 : (h.getD s.array []).length = 0 := by
        rw [List.getD_eq_getElem?_getD, List.getElem?_eq_none (Nat.le_of_not_lt hi)]
        rfl
      have hcap : s.cap = 0 := by have := hs.2; omega
      have hlen : s.len = 0 := by have := hs.1; omega
      refine ⟨?_, ?_⟩
      · simp only [Slice.elems, hlen, List.take_zero]
      · exact ⟨hs.1, by rw [hcap]; exact Nat.zero_le _⟩

/-! ## The steps of the builder -/

/-- An operation step returns the rule with the operation type of the step
behind its operations, and with the same resource triple and scope. -/
theorem OperationStep.apply_spec (v1 : V1Consts) (spare : Nat → Nat) (h : Heap)
    (rule : RuleWithOperations) (step : OperationStep) (hs : rule.Operations.WF h) :
    (step.apply v1 spare h rule).1.Operations.elems (step.apply v1 spare h rule).2
      = rule.Operations.elems h ++ [step.operationType v1] ∧
    (step.apply v1 spare h rule).1.Operations.WF (step.apply v1 spare h rule).2 ∧
    (step.apply v1 spare h rule).1.toRule = rule.toRule := by
  cases step <;>
    exact ⟨append_elems spare h rule.Operations _ hs,
      append_WF spare h rule.Operations _ hs, rfl⟩

/-- An operation step leaves the rule it was called on with the operations it
had. -/
theorem OperationStep.apply_keeps_receiver (v1 : V1Consts) (spare : Nat → Nat)
    (h : Heap) (rule : RuleWithOperations) (step : OperationStep)
    (hs : rule.Operations.WF h) :
    rule.Operations.elems (step.apply v1 spare h rule).2 = rule.Operations.elems h ∧
    rule.Operations.WF (step.apply v1 spare h rule).2 := by
  cases step <;> exact append_keeps_argument spare h rule.Operations _ hs

theorem applySteps_spec (v1 : V1Consts) (spare : Nat → Nat)
    (steps : List OperationStep) :
    ∀ (h : Heap) (rule : RuleWithOperations), rule.Operations.WF h →
      (applySteps v1 spare steps h rule).1.Operations.elems
          (applySteps v1 spare steps h rule).2
        = rule.Operations.elems h ++ steps.map (OperationStep.operationType v1) ∧
      (applySteps v1 spare steps h rule).1.toRule = rule.toRule := by
  induction steps with
  | nil =>
    intro h rule _
    simp [applySteps]
  | cons step steps ih =>
    intro h rule hs
    obtain ⟨h1, h2, h3⟩ := OperationStep.apply_spec v1 spare h rule step hs
    obtain ⟨h4, h5⟩ := ih _ _ h2
    simp only [applySteps]
    rw [h4, h5, h1, h3]
    simp

/-! ## Properties of the builder -/

/-- C16: for every `apiGroup`, `apiVersion` and `resource` and every finite
sequence of operation steps, the rule
`NewRule().OneResource(apiGroup, apiVersion, resource).NamespacedScope()`
followed by those steps has `APIGroups = [apiGroup]`, `APIVersions =
[apiVersion]`, `Resources = [resource]`, the namespaced scope, and as
operations the operation types of the steps in call order, one for each step:
none when there is no step.  This holds in every heap and for every growth
policy of `append`. -/
theorem built_rule_fields (v1 : V1Consts) (spare : Nat → Nat) (h : Heap)
    (apiGroup apiVersion resource : String) (steps : List OperationStep) :
    (applySteps v1 spare steps h
      ((NewRule.OneResource apiGroup apiVersion resource).NamespacedScope v1)).1.toRule
      = { APIGroups := [apiGroup], APIVersions := [apiVersion],
          Resources := [resource], Scope := v1.NamespacedScope } ∧
    (applySteps v1 spare steps h
      ((NewRule.OneResource apiGroup apiVersion resource).NamespacedScope v1)).1.Operations.elems
        (applySteps v1 spare steps h
          ((NewRule.OneResource apiGroup apiVersion resource).NamespacedScope v1)).2
      = steps.map (OperationStep.operationType v1) := by
  obtain ⟨h1, h2⟩ := applySteps_spec v1 spare steps h
    ((NewRule.OneResource apiGroup apiVersion resource).NamespacedScope v1)
    (Slice.WF_nil h)
  refine ⟨h2, ?_⟩
  rw [h1]
  simp [RuleWithOperations.NamespacedScope, RuleWithOperations.OneResource, NewRule,
    Slice.elems, Slice.nil]

/-- C17 fails on the code: with `base = NewRule().ForCreate().ForUpdate()
.ForDelete()`, the rule `a = base.ForAll()` has the operations of `base` and
then `OperationAll`; once `b = base.ForCreate()` has been computed, the last
operation of `a` is `Create`.  Both appends write the slot behind the three
operations of `base`, in the backing array `a` and `b` share with `base`.  The
operations of `base` are the same throughout. -/
theorem derived_rule_changed_by_later_step :
    ∃ base h a h1 b h2,
      sampleBase = (base, h) ∧
      base.ForAll sampleV1 doubling h = (a, h1) ∧
      base.ForCreate sampleV1 doubling h1 = (b, h2) ∧
      base.Operations.elems h = ["CREATE", "UPDATE", "DELETE"] ∧
      a.Operations.elems h1 = ["CREATE", "UPDATE", "DELETE", "*"] ∧
      a.Operations.elems h2 = ["CREATE", "UPDATE", "DELETE", "CREATE"] ∧
      b.Operations.elems h2 = ["CREATE", "UPDATE", "DELETE", "CREATE"] ∧
      base.Operations.elems h2 = ["CREATE", "UPDATE", "DELETE"] :=
  ⟨_, _, _, _, _, _, rfl, rfl, rfl, by decide, by decide, by decide, by decide,
    by decide⟩

/-- C20: `OneResource` replaces the resource triple and touches nothing else:
the result has `APIGroups = [apiGroup]`, `APIVersions = [apiVersion]` and
`Resources = [resource]`, whatever the rule held before, so a second
`OneResource` overrides the first instead of adding to it, and the operations
and the scope are those of the rule it was called on; `NamespacedScope` sets
the namespaced scope, is idempotent and leaves the operations and the resource
triple as they are; so the two commute.  Neither step touches the heap. -/
theorem OneResource_NamespacedScope_algebra (v1 : V1Consts) (r : RuleWithOperations)
    (g1 a1 x1 g2 a2 x2 : String) :
    (r.OneResource g1 a1 x1).OneResource g2 a2 x2 = r.OneResource g2 a2 x2 ∧
    (r.OneResource g1 a1 x1).Operations = r.Operations ∧
    (r.OneResource g1 a1 x1).Scope = r.Scope ∧
    (r.NamespacedScope v1).NamespacedScope v1 = r.NamespacedScope v1 ∧
    (r.NamespacedScope v1).Operations = r.Operations ∧
    (r.NamespacedScope v1).APIGroups = r.APIGroups ∧
    (r.NamespacedScope v1).APIVersions = r.APIVersions ∧
    (r.NamespacedScope v1).Resources = r.Resources ∧
    (r.OneResource g1 a1 x1).NamespacedScope v1
      = (r.NamespacedScope v1).OneResource g1 a1 x1 ∧
    (r.OneResource g1 a1 x1).APIGroups = [g1] ∧
    (r.OneResource g1 a1 x1).APIVersions = [a1] ∧
    (r.OneResource g1 a1 x1).Resources = [x1] ∧
    ((r.OneResource g1 a1 x1).OneResource g2 a2 x2).APIGroups = [g2] ∧
    ((r.OneResource g1 a1 x1).OneResource g2 a2 x2).APIVersions = [a2] ∧
    ((r.OneResource g1 a1 x1).OneResource g2 a2 x2).Resources = [x2] ∧
    (r.NamespacedScope v1).Scope = v1.NamespacedScope ∧
    ((r.OneResource g1 a1 x1).NamespacedScope v1).toRule
      = { APIGroups := [g1], APIVersions := [a1], Resources := [x1],
          Scope := v1.NamespacedScope } :=
  ⟨rfl, rfl, rfl, rfl, rfl, rfl, rfl, rfl, rfl, rfl, rfl, rfl, rfl, rfl, rfl, rfl, rfl⟩

end Webhooks
